import Mathlib

/-!
# DynamicPatriciaTrieReadingHelper

A shallow embedding of
`native/jni/src/suggest/policyimpl/dictionary/dynamic_patricia_trie_reading_helper.cpp`:
the header read `nextNodeArray`, the forward-link resolution `followForwardLink` and the
iterative postorder walk `traverseAllPtNodesInPostorderDepthFirstManner`.

* C++ `int` is embedded as `Int`: the embedding describes the executions without signed
  overflow (which C++ leaves undefined). The state stack (`std::vector`) is a `List` whose
  head is the back of the vector.
* The buffer, the decoders and the node reader are parameters (`Dict`).
* `nextNodeArray` and `followForwardLink` call each other. The embedding recurses on the
  number of header reads that the ceiling of the node-array counter leaves
  (`headerReadBudget`), which is never used up (`nextNodeArray_eq`).
* The loop of the walk runs on fuel. A run records the calls of the listener with the state
  of the helper at each call; its `ret` is `none` when the fuel ran out before the function
  returned.
* The walk is embedded for every choice of the member functions that it calls and that the
  class header defines (`Ops`). Their definitions on the helper (`helperOps`) are modelled
  from the specification.
* `nextNodeArrayCounted` is the recursion of `nextNodeArray` with the number of its header
  reads, and `traverseHasChildrenQueries` lists the states at which the walk reads
  `mNodeReader.hasChildren()`.
-/

namespace latinime

variable {σ κ : Type}

/-! ## External collaborators -/

/-- The collaborators of the reading helper whose code lives outside the translated file:
the buffer (`BufferWithExtendableBuffer`), the decoders (`PatriciaTrieReadingUtils`,
`DynamicPatriciaTrieReadingUtils`), the node reader (`DynamicPatriciaTrieNodeReader`) and the
constants `NOT_A_DICT_POS` and `MAX_WORD_LENGTH`. They are taken as parameters. A decoder
receives the buffer it reads (`true` for the additional buffer, the value handed to
`getBuffer`) and a position relative to that buffer. -/
structure Dict where
  /-- The sentinel position. -/
  NOT_A_DICT_POS : Int
  /-- The longest word, a number of code points. -/
  MAX_WORD_LENGTH : Nat
  /-- The call `mBuffer->isInAdditionalBuffer(pos)`. -/
  isInAdditionalBuffer : Int → Bool
  /-- The call `mBuffer->getOriginalBufferSize()`. -/
  getOriginalBufferSize : Int
  /-- The decoder of a node-array header: the node count and the position past the header. -/
  getPtNodeArraySizeAndAdvancePosition : Bool → Int → Int × Int
  /-- The decoder of the forward-link field. -/
  getForwardLinkPosition : Bool → Int → Int
  /-- Whether a decoded forward link is one to follow. -/
  isValidForwardLinkPosition : Int → Bool
  /-- The node reader: whether the node decoded at a position has children. -/
  hasChildren : Int → Bool
  /-- The node reader: the position of the children array of the node decoded at a position. -/
  getChildrenPos : Int → Int
  /-- The node reader: the position just past the node decoded at a position. -/
  getSiblingNodePos : Int → Int

/-! ## Data model -/

/-- The constant of line 24. -/
def MAX_CHILD_COUNT_TO_AVOID_INFINITE_LOOP : Int := 100000

/-- The constant of line 25. -/
def MAX_NODE_ARRAY_COUNT_TO_AVOID_INFINITE_LOOP : Int := 100000

/-- The constant of line 26. -/
def MAX_READING_STATE_STACK_SIZE (d : Dict) : Nat := d.MAX_WORD_LENGTH

/-- The fields of `mReadingState` that the translated file reads and writes. -/
structure ReadingState where
  mPos : Int
  mNodeCount : Int
  mTotalNodeCount : Int
  mNodeArrayCount : Int
  mPosOfLastForwardLinkField : Int
  mPosOfLastPtNodeArrayHead : Int
deriving DecidableEq

/-- The members of `DynamicPatriciaTrieReadingHelper` that the translated file reads and
writes. The member `mNodeReader` holds the node decoded at the current position and is
represented by that position. -/
structure Helper where
  mIsError : Bool
  mReadingState : ReadingState
  mReadingStateStack : List ReadingState
deriving DecidableEq

/-! ## `nextNodeArray` and `followForwardLink` -/

/-- Lines 79-81 and 114-116: a position in the additional buffer is made relative to that
buffer before decoding. -/
def toBufferPos (d : Dict) (usesAdditionalBuffer : Bool) (pos : Int) : Int :=
  if usesAdditionalBuffer then pos - d.getOriginalBufferSize else pos

/-- Lines 84-86 and 119-121: a position relative to the additional buffer is made logical
again after decoding. -/
def ofBufferPos (d : Dict) (usesAdditionalBuffer : Bool) (pos : Int) : Int :=
  if usesAdditionalBuffer then pos + d.getOriginalBufferSize else pos

/-- Lines 76-89 of `nextNodeArray`: the array head is recorded, the header is decoded in the
buffer the position lies in, and the two counters are counted up. -/
def readPtNodeArrayHeader (d : Dict) (s : ReadingState) : ReadingState :=
  let usesAdditionalBuffer := d.isInAdditionalBuffer s.mPos
  let decoded := d.getPtNodeArraySizeAndAdvancePosition usesAdditionalBuffer
    (toBufferPos d usesAdditionalBuffer s.mPos)
  { s with
    mPosOfLastPtNodeArrayHead := s.mPos
    mPos := ofBufferPos d usesAdditionalBuffer decoded.2
    mNodeCount := decoded.1
    mTotalNodeCount := s.mTotalNodeCount + decoded.1
    mNodeArrayCount := s.mNodeArrayCount + 1 }

/-- The condition of lines 90-92, on the state after the header read. -/
def isInvalidPtNodeArray (s : ReadingState) : Bool :=
  decide (s.mNodeCount < 0)
    || decide (s.mTotalNodeCount > MAX_CHILD_COUNT_TO_AVOID_INFINITE_LOOP)
    || decide (s.mNodeArrayCount > MAX_NODE_ARRAY_COUNT_TO_AVOID_INFINITE_LOOP)

/-- Lines 112-121 of `followForwardLink`: the forward-link field at the position is decoded
in the buffer the position lies in; the position itself is as before once line 120 has
undone line 115. -/
def readForwardLinkField (d : Dict) (s : ReadingState) : Int :=
  let usesAdditionalBuffer := d.isInAdditionalBuffer s.mPos
  d.getForwardLinkPosition usesAdditionalBuffer (toBufferPos d usesAdditionalBuffer s.mPos)

/-- The body of `followForwardLink` (lines 111-131), with the call of `nextNodeArray` at
line 126 passed as `next`. -/
def followForwardLinkWith (d : Dict) (next : Helper → Helper) (h : Helper) : Helper :=
  let forwardLinkPosition := readForwardLinkField d h.mReadingState
  let s := { h.mReadingState with mPosOfLastForwardLinkField := h.mReadingState.mPos }
  if d.isValidForwardLinkPosition forwardLinkPosition then
    -- Follow the forward link.
    next { h with mReadingState := { s with mPos := s.mPos + forwardLinkPosition } }
  else
    -- All node arrays have been read.
    { h with mReadingState := { s with mPos := d.NOT_A_DICT_POS } }

/-- The body of `nextNodeArray` (lines 75-108), recursing through `followForwardLink` at most
`fuel` times. -/
def nextNodeArrayFuel (d : Dict) : Nat → Helper → Helper
  | 0, h => h
  | fuel + 1, h =>
    let s := readPtNodeArrayHeader d h.mReadingState
    if isInvalidPtNodeArray s then
      { h with mIsError := true, mReadingState := { s with mPos := d.NOT_A_DICT_POS } }
    else if s.mNodeCount = 0 then
      followForwardLinkWith d (nextNodeArrayFuel d fuel) { h with mReadingState := s }
    else
      { h with mReadingState := s }

/-- The number of header reads that `nextNodeArray` can make from a state: each read counts
the node-array counter up and a counter above the ceiling ends the recursion. -/
def headerReadBudget (s : ReadingState) : Nat :=
  max 1 (MAX_NODE_ARRAY_COUNT_TO_AVOID_INFINITE_LOOP + 1 - s.mNodeArrayCount).toNat

/-- The function `nextNodeArray` of lines 75-108. -/
def nextNodeArray (d : Dict) (h : Helper) : Helper :=
  nextNodeArrayFuel d (headerReadBudget h.mReadingState) h

/-- The function `followForwardLink` of lines 111-131. -/
def followForwardLink (d : Dict) (h : Helper) : Helper :=
  followForwardLinkWith d (nextNodeArray d) h

/-! ## Counting the header reads -/

/-- The body of `followForwardLink` (lines 111-131) with the number of header reads that it
makes: those of the call of `nextNodeArray` at line 126, passed as `next`, and none when the
link is not followed. -/
def followForwardLinkCountedWith (d : Dict) (next : Helper → Option (Helper × Nat))
    (h : Helper) : Option (Helper × Nat) :=
  let forwardLinkPosition := readForwardLinkField d h.mReadingState
  let s := { h.mReadingState with mPosOfLastForwardLinkField := h.mReadingState.mPos }
  if d.isValidForwardLinkPosition forwardLinkPosition then
    -- Follow the forward link.
    next { h with mReadingState := { s with mPos := s.mPos + forwardLinkPosition } }
  else
    -- All node arrays have been read.
    some ({ h with mReadingState := { s with mPos := d.NOT_A_DICT_POS } }, 0)

/-- The body of `nextNodeArray` (lines 75-108) with the number of header reads (lines 82-83)
that the call makes, its own and those of its call of `followForwardLink`. The call may make
`fuel` header reads; the result is `none` when it would make one more. -/
def nextNodeArrayCounted (d : Dict) : Nat → Helper → Option (Helper × Nat)
  | 0, _ => none
  | fuel + 1, h =>
    let s := readPtNodeArrayHeader d h.mReadingState
    if isInvalidPtNodeArray s then
      some ({ h with mIsError := true, mReadingState := { s with mPos := d.NOT_A_DICT_POS } }, 1)
    else if s.mNodeCount = 0 then
      (followForwardLinkCountedWith d (nextNodeArrayCounted d fuel)
        { h with mReadingState := s }).map fun r => (r.1, r.2 + 1)
    else
      some ({ h with mReadingState := s }, 1)

/-- The function `followForwardLink` with the number of header reads that the call makes,
which may be `fuel` reads. -/
def followForwardLinkCounted (d : Dict) (fuel : Nat) (h : Helper) : Option (Helper × Nat) :=
  followForwardLinkCountedWith d (nextNodeArrayCounted d fuel) h

/-! ## The traversal -/

/-- The member functions that `traverseAllPtNodesInPostorderDepthFirstManner` calls and that
are defined outside the translated file, over a helper state `σ`. The walk is embedded for
every choice of them. -/
structure Ops (σ : Type) where
  isEnd : σ → Bool
  isError : σ → Bool
  /-- The call `mNodeReader.hasChildren()`. -/
  hasChildren : σ → Bool
  /-- The node handed to `onVisitingPtNode`, named by its position. -/
  mNodeReader : σ → Int
  pushReadingStateToStack : σ → σ
  readChildNode : σ → σ
  readNextSiblingNode : σ → σ
  popReadingStateFromStack : σ → σ

/-- The interface `TraversingEventListener`: three callbacks that answer whether to go on. A
listener carries a state of its own, `κ`, which every callback may change. -/
structure TraversingEventListener (κ : Type) where
  onAscend : κ → Bool × κ
  onDescend : κ → Bool × κ
  onVisitingPtNode : Int → κ → Bool × κ

/-- The callback that a call of the listener invokes. -/
inductive Event where
  | onDescend
  | onAscend
  | onVisitingPtNode (node : Int)
deriving DecidableEq

/-- One call of the listener: the callback, the helper state at the call, and the answer. -/
structure Call (σ : Type) where
  event : Event
  helper : σ
  answer : Bool
deriving DecidableEq

/-- What a run of the walk leaves: the returned value (`none` when the fuel of the loop ran
out before the function returned), the calls of the listener in order, and the final states
of the helper and of the listener. -/
structure Run (σ κ : Type) where
  ret : Option Bool
  calls : List (Call σ)
  helper : σ
  listener : κ
deriving DecidableEq

/-- The run `r` preceded by the calls `cs`. -/
def Run.after {σ κ : Type} (cs : List (Call σ)) (r : Run σ κ) : Run σ κ :=
  { r with calls := cs ++ r.calls }

/-- The loop of lines 35-65 followed by lines 66-70, from the loop head with the local
`alreadyVisitedChildren`; `fuel` bounds the number of iterations. -/
def traverseLoop {σ κ : Type} (ops : Ops σ) (listener : TraversingEventListener κ) :
    Nat → Bool → σ → κ → Run σ κ
  | 0, _, h, l => { ret := none, calls := [], helper := h, listener := l }
  | fuel + 1, alreadyVisitedChildren, h, l =>
    if ops.isEnd h then
      -- Ascend from the root PtNode array to the root.
      let a := listener.onAscend l
      { ret := some (if a.1 then !ops.isError h else false)
        calls := [⟨Event.onAscend, h, a.1⟩], helper := h, listener := a.2 }
    else if !alreadyVisitedChildren then
      if ops.hasChildren h then
        -- Move to the first child.
        let a := listener.onDescend l
        if !a.1 then
          { ret := some false, calls := [⟨Event.onDescend, h, false⟩], helper := h,
            listener := a.2 }
        else
          (traverseLoop ops listener fuel false
            (ops.readChildNode (ops.pushReadingStateToStack h)) a.2).after
            [⟨Event.onDescend, h, true⟩]
      else
        traverseLoop ops listener fuel true h l
    else
      let a := listener.onVisitingPtNode (ops.mNodeReader h) l
      if !a.1 then
        { ret := some false, calls := [⟨Event.onVisitingPtNode (ops.mNodeReader h), h, false⟩],
          helper := h, listener := a.2 }
      else
        let h1 := ops.readNextSiblingNode h
        if ops.isEnd h1 then
          -- All PtNodes in current linked PtNode arrays have been visited.
          -- Return to the parent.
          let b := listener.onAscend a.2
          if !b.1 then
            { ret := some false
              calls := [⟨Event.onVisitingPtNode (ops.mNodeReader h), h, true⟩,
                ⟨Event.onAscend, h1, false⟩]
              helper := h1, listener := b.2 }
          else
            (traverseLoop ops listener fuel true (ops.popReadingStateFromStack h1) b.2).after
              [⟨Event.onVisitingPtNode (ops.mNodeReader h), h, true⟩,
                ⟨Event.onAscend, h1, true⟩]
        else
          -- Process sibling PtNode.
          (traverseLoop ops listener fuel false h1 a.2).after
            [⟨Event.onVisitingPtNode (ops.mNodeReader h), h, true⟩]

/-- The function `traverseAllPtNodesInPostorderDepthFirstManner` of lines 28-71, with `fuel`
iterations of its loop at most. -/
def traverseAllPtNodesInPostorderDepthFirstManner {σ κ : Type} (ops : Ops σ)
    (listener : TraversingEventListener κ) (fuel : Nat) (h : σ) (l : κ) : Run σ κ :=
  -- Descend from the root to the root PtNode array.
  let a := listener.onDescend l
  if !a.1 then
    { ret := some false, calls := [⟨Event.onDescend, h, false⟩], helper := h, listener := a.2 }
  else
    (traverseLoop ops listener fuel false h a.2).after [⟨Event.onDescend, h, true⟩]

/-! ## The queries of the node reader -/

/-- The states of the helper at which the loop of lines 35-65 calls
`mNodeReader.hasChildren()` (line 37), in order, from the loop head with the local
`alreadyVisitedChildren`; the recursion is that of `traverseLoop`. -/
def hasChildrenQueries {σ κ : Type} (ops : Ops σ) (listener : TraversingEventListener κ) :
    Nat → Bool → σ → κ → List σ
  | 0, _, _, _ => []
  | fuel + 1, alreadyVisitedChildren, h, l =>
    if ops.isEnd h then
      []
    else if !alreadyVisitedChildren then
      if ops.hasChildren h then
        -- Move to the first child.
        let a := listener.onDescend l
        if !a.1 then
          [h]
        else
          h :: hasChildrenQueries ops listener fuel false
            (ops.readChildNode (ops.pushReadingStateToStack h)) a.2
      else
        h :: hasChildrenQueries ops listener fuel true h l
    else
      let a := listener.onVisitingPtNode (ops.mNodeReader h) l
      if !a.1 then
        []
      else
        let h1 := ops.readNextSiblingNode h
        if ops.isEnd h1 then
          let b := listener.onAscend a.2
          if !b.1 then
            []
          else
            hasChildrenQueries ops listener fuel true (ops.popReadingStateFromStack h1) b.2
        else
          hasChildrenQueries ops listener fuel false h1 a.2

/-- The states of the helper at which `traverseAllPtNodesInPostorderDepthFirstManner` calls
`mNodeReader.hasChildren()`, in order, with `fuel` iterations of its loop at most. -/
def traverseHasChildrenQueries {σ κ : Type} (ops : Ops σ) (listener : TraversingEventListener κ)
    (fuel : Nat) (h : σ) (l : κ) : List σ :=
  -- Descend from the root to the root PtNode array.
  let a := listener.onDescend l
  if !a.1 then
    []
  else
    hasChildrenQueries ops listener fuel false h a.2

/-! ## The member functions of the class header -/

/-- Modelled from the spec: `isEnd` is defined in the class header, which is not among the
translated sources. Section 6: the traversal is at its end when the position is the
sentinel. -/
def isEnd (d : Dict) (h : Helper) : Bool :=
  decide (h.mReadingState.mPos = d.NOT_A_DICT_POS)

/-- Modelled from the spec: `isError` is defined in the class header, which is not among the
translated sources. Section 6: the traversal is in an error state when the internal error flag
is set. -/
def isError (h : Helper) : Bool :=
  h.mIsError

/-- Modelled from the spec: `pushReadingStateToStack` is defined in the class header, which is
not among the translated sources. Section 4.4: the current reading state, with its position,
node count and counters, is copied onto the stack. What happens at the bound
`MAX_READING_STATE_STACK_SIZE` is an open question of the spec and no bound is modelled. -/
def pushReadingStateToStack (h : Helper) : Helper :=
  { h with mReadingStateStack := h.mReadingState :: h.mReadingStateStack }

/-- Modelled from the spec: `popReadingStateFromStack` is defined in the class header, which
is not among the translated sources. Section 4.4: the current reading state is replaced with
the top of the stack, which is removed. With nothing on the stack there is nothing to restore
and the state is left as it is. -/
def popReadingStateFromStack (h : Helper) : Helper :=
  match h.mReadingStateStack with
  | [] => h
  | s :: rest => { h with mReadingState := s, mReadingStateStack := rest }

/-- Modelled from the spec: `readChildNode` is defined in the class header, which is not among
the translated sources. Section 4.1: the cursor moves to the first child of the current node,
which begins a new array read (section 4.2). The spec does not say whether a descent restarts
the two running counters; the array read goes on from the counters of the state that was
pushed. -/
def readChildNode (d : Dict) (h : Helper) : Helper :=
  nextNodeArray d
    { h with mReadingState :=
      { h.mReadingState with mPos := d.getChildrenPos h.mReadingState.mPos } }

/-- Modelled from the spec: `readNextSiblingNode` is defined in the class header, which is not
among the translated sources. Sections 3, 4.1 and 4.3: the count of the nodes that remain in
the current array goes down by one and the cursor moves past the node to its next sibling;
when the array is exhausted the cursor stands on the forward-link field, which is resolved. -/
def readNextSiblingNode (d : Dict) (h : Helper) : Helper :=
  let s := { h.mReadingState with
    mNodeCount := h.mReadingState.mNodeCount - 1
    mPos := d.getSiblingNodePos h.mReadingState.mPos }
  if s.mNodeCount ≤ 0 then
    followForwardLink d { h with mReadingState := s }
  else
    { h with mReadingState := s }

/-- Modelled from the spec: the node reader `mNodeReader` is a member declared in the class
header, which is not among the translated sources. Sections 3 and 4.1: it stands for the node
at the current position, so the node is named by that position and `hasChildren` is asked of
the dictionary there. The other fields are the member functions above. -/
def helperOps (d : Dict) : Ops Helper where
  isEnd := isEnd d
  isError := isError
  hasChildren := fun h => d.hasChildren h.mReadingState.mPos
  mNodeReader := fun h => h.mReadingState.mPos
  pushReadingStateToStack := pushReadingStateToStack
  readChildNode := readChildNode d
  readNextSiblingNode := readNextSiblingNode d
  popReadingStateFromStack := popReadingStateFromStack

/-! ## Tries and their postorder walk -/

/-- A trie as the walk reads it, from a cursor: `done` when the cursor is at the end of the
linked node arrays of a level; otherwise the node under the cursor, without children (`leaf`)
or with the level that its child array begins (`parent`), and the rest of its own level. -/
inductive Trie where
  | done : Trie
  | leaf (pos : Int) (next : Trie) : Trie
  | parent (pos : Int) (children : Trie) (next : Trie) : Trie
deriving DecidableEq

/-- The helper `h` stands at the trie `t`: the reads of the dictionary unfold from `h` to the
nodes of `t`, level by level, and flag no error. -/
def represents (d : Dict) : Helper → Trie → Bool
  | h, Trie.done => isEnd d h && !h.mIsError
  | h, Trie.leaf pos next =>
    !isEnd d h && decide (h.mReadingState.mPos = pos) && !d.hasChildren pos
      && represents d (readNextSiblingNode d h) next
  | h, Trie.parent pos children next =>
    !isEnd d h && decide (h.mReadingState.mPos = pos) && d.hasChildren pos
      && represents d (readChildNode d (pushReadingStateToStack h)) children
      && represents d (readNextSiblingNode d h) next

/-- Every child array of the trie holds a node, in itself or behind its forward links. -/
def Trie.childArraysNonEmpty : Trie → Bool
  | Trie.done => true
  | Trie.leaf _ next => next.childArraysNonEmpty
  | Trie.parent _ children next =>
    decide (children ≠ Trie.done) && children.childArraysNonEmpty && next.childArraysNonEmpty

/-- The positions of the nodes of the trie. -/
def Trie.nodes : Trie → List Int
  | Trie.done => []
  | Trie.leaf pos next => pos :: next.nodes
  | Trie.parent pos children next => pos :: (children.nodes ++ next.nodes)

/-- The tries that begin at a node of the trie: the trie, the levels below it and what
follows each of their nodes. -/
def Trie.parts : Trie → List Trie
  | Trie.done => []
  | Trie.leaf pos next => Trie.leaf pos next :: next.parts
  | Trie.parent pos children next =>
    Trie.parent pos children next :: (children.parts ++ next.parts)

/-- The callbacks of a postorder walk of the levels that begin with the trie: for a node with
children `onDescend`, the callbacks of its children, the `onAscend` that closes their level,
and then the visit of the node. -/
def Trie.postorder : Trie → List Event
  | Trie.done => []
  | Trie.leaf pos next => Event.onVisitingPtNode pos :: next.postorder
  | Trie.parent pos children next =>
    Event.onDescend :: (children.postorder
      ++ Event.onAscend :: Event.onVisitingPtNode pos :: next.postorder)

/-- The number of iterations that the loop of the walk spends on the level that begins with
the trie. -/
def Trie.iterations : Trie → Nat
  | Trie.done => 0
  | Trie.leaf _ next => next.iterations + 2
  | Trie.parent _ children next => next.iterations + children.iterations + 2

/-- The helper at the end of the level that begins with the trie at `h`. -/
def levelEnd (d : Dict) : Trie → Helper → Helper
  | Trie.done, h => h
  | Trie.leaf _ next, h => levelEnd d next (readNextSiblingNode d h)
  | Trie.parent _ _ next, h => levelEnd d next (readNextSiblingNode d h)

/-- The calls, all answered `true`, of a postorder walk of the level that begins with the
trie at `h`, with the helper at each call; the last call is the `onAscend` that closes the
level. -/
def walkCalls (d : Dict) : Trie → Helper → List (Call Helper)
  | Trie.done, h => [⟨Event.onAscend, h, true⟩]
  | Trie.leaf pos next, h =>
    ⟨Event.onVisitingPtNode pos, h, true⟩ :: walkCalls d next (readNextSiblingNode d h)
  | Trie.parent pos children next, h =>
    ⟨Event.onDescend, h, true⟩
      :: (walkCalls d children (readChildNode d (pushReadingStateToStack h))
        ++ ⟨Event.onVisitingPtNode pos, h, true⟩
          :: walkCalls d next (readNextSiblingNode d h))

/-- The calls, all answered `true`, of the walk of the trie at `h` from the root: the descent
from the root, the walk of the root level and, unless there is no node at all, the final
`onAscend`. -/
def rootCalls (d : Dict) (t : Trie) (h : Helper) : List (Call Helper) :=
  ⟨Event.onDescend, h, true⟩
    :: (walkCalls d t h
      ++ (if t = Trie.done then [] else [⟨Event.onAscend, levelEnd d t h, true⟩]))

/-- What the walk does on a level: its calls, whether it came to the end of the level (the
last call is then the `onAscend` that closes the level), the helper it is left with, and the
iterations of the loop it took. -/
structure LevelWalk where
  calls : List (Call Helper)
  completed : Bool
  helper : Helper
  iterations : Nat

/-- The walk of the level that begins with the trie at `h`, with every call answered `true`.
A descent into a child array without a node leaves the cursor at the end: the walk of the
level, and of every level above it, stops there. -/
def levelWalk (d : Dict) : Trie → Helper → LevelWalk
  | Trie.done, h =>
    { calls := [⟨Event.onAscend, h, true⟩], completed := true, helper := h, iterations := 0 }
  | Trie.leaf pos next, h =>
    let wn := levelWalk d next (readNextSiblingNode d h)
    { calls := ⟨Event.onVisitingPtNode pos, h, true⟩ :: wn.calls
      completed := wn.completed, helper := wn.helper, iterations := wn.iterations + 2 }
  | Trie.parent pos children next, h =>
    let wc := levelWalk d children (readChildNode d (pushReadingStateToStack h))
    let wn := levelWalk d next (readNextSiblingNode d h)
    if children = Trie.done then
      { calls := [⟨Event.onDescend, h, true⟩], completed := false
        helper := readChildNode d (pushReadingStateToStack h), iterations := 1 }
    else if wc.completed then
      { calls := ⟨Event.onDescend, h, true⟩
          :: (wc.calls ++ ⟨Event.onVisitingPtNode pos, h, true⟩ :: wn.calls)
        completed := wn.completed, helper := wn.helper
        iterations := wn.iterations + wc.iterations + 2 }
    else
      { calls := ⟨Event.onDescend, h, true⟩ :: wc.calls, completed := false
        helper := wc.helper, iterations := wc.iterations + 1 }

/-- The calls, all answered `true`, of the walk of the trie at `h` from the root: the
descent from the root, the walk of the root level and, unless there is no node at all, the
final `onAscend`. -/
def rootWalkCalls (d : Dict) (t : Trie) (h : Helper) : List (Call Helper) :=
  ⟨Event.onDescend, h, true⟩
    :: ((levelWalk d t h).calls
      ++ (if t = Trie.done then [] else [⟨Event.onAscend, (levelWalk d t h).helper, true⟩]))

/-- The nodes that the calls visited, in order. -/
def visitedNodes : List (Call σ) → List Int
  | [] => []
  | c :: cs =>
    match c.event with
    | Event.onVisitingPtNode node => node :: visitedNodes cs
    | _ => visitedNodes cs

/-- What a call of `nextNodeArray` or of `followForwardLink` leaves of the state `h` in its
result `r`, where the call makes `k` header reads at least: the stack is untouched, a set
error flag stays set, the node-array counter went up, and a result off the sentinel stands
on a node of a non-empty array, below the ceilings, with the error flag as it was. -/
structure Landed (d : Dict) (k : Int) (h r : Helper) : Prop where
  stack : r.mReadingStateStack = h.mReadingStateStack
  flag : h.mIsError = true → r.mIsError = true
  count : h.mReadingState.mNodeArrayCount + k ≤ r.mReadingState.mNodeArrayCount
  raised : r.mIsError ≠ h.mIsError →
    h.mReadingState.mNodeArrayCount + 1 ≤ r.mReadingState.mNodeArrayCount
  node : r.mReadingState.mPos ≠ d.NOT_A_DICT_POS →
    r.mIsError = h.mIsError ∧ h.mReadingState.mNodeArrayCount + 1 ≤ r.mReadingState.mNodeArrayCount
      ∧ r.mReadingState.mNodeArrayCount ≤ 100000 ∧ 1 ≤ r.mReadingState.mNodeCount
      ∧ r.mReadingState.mTotalNodeCount ≤ 100000

/-- The listener answers `true` to every callback, in every state of its own. -/
def TraversingEventListener.AlwaysTrue (listener : TraversingEventListener κ) : Prop :=
  (∀ l, (listener.onAscend l).1 = true) ∧ (∀ l, (listener.onDescend l).1 = true)
    ∧ ∀ node l, (listener.onVisitingPtNode node l).1 = true

/-- The run returned `false` at the first call that was answered `false`, with the helper as
it was at that call. -/
def StopsAtFalse (r : Run σ κ) : Prop :=
  ∀ (i : Nat) (c : Call σ), r.calls[i]? = some c → c.answer = false →
    r.ret = some false ∧ r.calls.length = i + 1 ∧ r.helper = c.helper

/-- The member functions that move the cursor leave a set error flag set. -/
structure Ops.KeepsError (ops : Ops σ) : Prop where
  push : ∀ h, ops.isError h = true → ops.isError (ops.pushReadingStateToStack h) = true
  child : ∀ h, ops.isError h = true → ops.isError (ops.readChildNode h) = true
  sibling : ∀ h, ops.isError h = true → ops.isError (ops.readNextSiblingNode h) = true
  pop : ∀ h, ops.isError h = true → ops.isError (ops.popReadingStateFromStack h) = true

/-- After a call `c` that was answered `true` and moved the cursor to the end, by a descent
or by an advance after which the pop leaves the cursor at the end, the run made no call but
`onAscend`. -/
def OnlyAscendsAfterEnd (ops : Ops σ) (r : Run σ κ) : Prop :=
  ∀ (pre post : List (Call σ)) (c : Call σ), r.calls = pre ++ c :: post → c.answer = true →
    (c.event = Event.onDescend
        ∧ ops.isEnd (ops.readChildNode (ops.pushReadingStateToStack c.helper)) = true)
      ∨ ((∃ n, c.event = Event.onVisitingPtNode n)
        ∧ ops.isEnd (ops.readNextSiblingNode c.helper) = true
        ∧ ops.isEnd (ops.popReadingStateFromStack (ops.readNextSiblingNode c.helper)) = true) →
    ∀ c2 ∈ post, c2.event = Event.onAscend

/-- The calls `cs` are made on a stack of `n` states at least, and their `onAscend` on a
stack of more than `n` states: they are the calls of a level that is `n` states deep, without
the `onAscend` that closes it. -/
def AtDepth (n : Nat) (cs : List (Call Helper)) : Prop :=
  ∀ m ∈ cs, n ≤ m.helper.mReadingStateStack.length
    ∧ (m.event = Event.onAscend → n < m.helper.mReadingStateStack.length)

/-- Every `onDescend` among the calls `cs` is matched: the calls that follow it are calls
`mid` of the level it descends to, on a stack that holds the state it pushed, then the
`onAscend` `a` that closes that level, on the stack with the pushed state on top, and then a
call `v` whose helper is the helper of the descent again, restored by the pop. -/
def DescentsMatched (cs : List (Call Helper)) : Prop :=
  ∀ (pre post : List (Call Helper)) (c : Call Helper), cs = pre ++ c :: post →
    c.event = Event.onDescend →
    ∃ (mid : List (Call Helper)) (a v : Call Helper) (rest : List (Call Helper)),
      post = mid ++ a :: v :: rest ∧ a.event = Event.onAscend
        ∧ a.helper.mReadingStateStack = c.helper.mReadingState :: c.helper.mReadingStateStack
        ∧ v.helper = c.helper ∧ AtDepth (c.helper.mReadingStateStack.length + 1) mid

/-! ## Sample dictionaries -/

/-- A dictionary with three tries, each node one unit long and every array in the original
buffer. At 0: an array of the nodes 1 and 2; node 1 has the child array at 10, which holds
the node 11. At 40: an array of the node 41, with the child array at 50, which holds the node
51 and is followed by a forward link to 60, where the header declares a negative count.
At 70: an array of the nodes 71 and 72; node 71 has the child array at 80, which is empty
and has no forward link. At 90: an array of the node 91, with the child array at 100, where
the header declares a negative count. -/
def sampleDict : Dict where
  NOT_A_DICT_POS := -2147483648
  MAX_WORD_LENGTH := 48
  isInAdditionalBuffer := fun pos => decide (1000 ≤ pos)
  getOriginalBufferSize := 1000
  getPtNodeArraySizeAndAdvancePosition := fun _ pos =>
    if pos = 0 ∨ pos = 70 then (2, pos + 1)
    else if pos = 10 ∨ pos = 40 ∨ pos = 50 ∨ pos = 90 then (1, pos + 1)
    else if pos = 60 ∨ pos = 100 then (-1, pos + 1)
    else (0, pos + 1)
  getForwardLinkPosition := fun _ pos => if pos = 52 then 8 else 0
  isValidForwardLinkPosition := fun link => decide (link ≠ 0)
  hasChildren := fun pos => decide (pos = 1 ∨ pos = 41 ∨ pos = 71 ∨ pos = 91)
  getChildrenPos := fun pos => pos + 9
  getSiblingNodePos := fun pos => pos + 1

/-- A helper that is about to read the node array at `pos`, with its counters at zero, no
error and nothing on the stack. -/
def sampleHelper (pos : Int) : Helper where
  mIsError := false
  mReadingState :=
    { mPos := pos, mNodeCount := 0, mTotalNodeCount := 0, mNodeArrayCount := 0
      mPosOfLastForwardLinkField := -2147483648, mPosOfLastPtNodeArrayHead := -2147483648 }
  mReadingStateStack := []

/-- The state in which the walk of the sample dictionary starts at the array at `pos`. -/
def sampleStart (pos : Int) : Helper :=
  nextNodeArray sampleDict (sampleHelper pos)

/-- The third call of the walk from 0 is the visit of node 11. -/
def sampleThirdCall : Call Helper where
  event := Event.onVisitingPtNode 11
  helper :=
    { mIsError := false
      mReadingState :=
        { mPos := 11, mNodeCount := 1, mTotalNodeCount := 3, mNodeArrayCount := 2
          mPosOfLastForwardLinkField := -2147483648, mPosOfLastPtNodeArrayHead := 10 }
      mReadingStateStack :=
        [{ mPos := 1, mNodeCount := 2, mTotalNodeCount := 2, mNodeArrayCount := 1
           mPosOfLastForwardLinkField := -2147483648, mPosOfLastPtNodeArrayHead := 0 }] }
  answer := false

/-- The trie of the sample dictionary at 0. -/
def sampleTrie : Trie :=
  Trie.parent 1 (Trie.leaf 11 Trie.done) (Trie.leaf 2 Trie.done)

/-- The trie of the sample dictionary at 70, whose node 71 has an empty child array. -/
def sampleTrieEmptyChild : Trie :=
  Trie.parent 71 Trie.done (Trie.leaf 72 Trie.done)

/-- The listener that answers `true` to every callback. -/
def listenerAlwaysTrue : TraversingEventListener Unit where
  onAscend := fun l => (true, l)
  onDescend := fun l => (true, l)
  onVisitingPtNode := fun _ l => (true, l)

/-- The listener that counts its callbacks and answers `false` to the `n`-th one. -/
def listenerStopAt (n : Nat) : TraversingEventListener Nat where
  onAscend := fun l => (decide (l + 1 ≠ n), l + 1)
  onDescend := fun l => (decide (l + 1 ≠ n), l + 1)
  onVisitingPtNode := fun _ l => (decide (l + 1 ≠ n), l + 1)

/-- A dictionary of empty node arrays in a cycle: every header declares no node, one unit
long, and every forward-link field holds the valid link -1, which leads back to the head of
the array before it. -/
def cycleDict : Dict where
  NOT_A_DICT_POS := -2147483648
  MAX_WORD_LENGTH := 48
  isInAdditionalBuffer := fun _ => false
  getOriginalBufferSize := 1000
  getPtNodeArraySizeAndAdvancePosition := fun _ pos => (0, pos + 1)
  getForwardLinkPosition := fun _ _ => -1
  isValidForwardLinkPosition := fun link => decide (link ≠ 0)
  hasChildren := fun _ => false
  getChildrenPos := fun pos => pos
  getSiblingNodePos := fun pos => pos + 1

/-- A dictionary of two buffers whose decoders tell them apart: the original buffer is 100
units long. In the original buffer the array at 20 holds two nodes and its header is one
unit long; in the additional buffer the array at offset 5 (logical position 105) holds three
nodes and its header is two units long; every other header declares no node. The
forward-link field at 40 of the original buffer holds the link 65, to the logical position
105, and the field at offset 30 of the additional buffer (logical position 130) holds the
link -110, to the original position 20. -/
def segmentDict : Dict where
  NOT_A_DICT_POS := -2147483648
  MAX_WORD_LENGTH := 48
  isInAdditionalBuffer := fun pos => decide (100 ≤ pos)
  getOriginalBufferSize := 100
  getPtNodeArraySizeAndAdvancePosition := fun usesAdditionalBuffer pos =>
    if usesAdditionalBuffer then (if pos = 5 then (3, pos + 2) else (0, pos + 1))
    else (if pos = 20 then (2, pos + 1) else (0, pos + 1))
  getForwardLinkPosition := fun usesAdditionalBuffer pos =>
    if usesAdditionalBuffer then (if pos = 30 then -110 else 0)
    else (if pos = 40 then 65 else 0)
  isValidForwardLinkPosition := fun link => decide (link ≠ 0)
  hasChildren := fun _ => false
  getChildrenPos := fun pos => pos
  getSiblingNodePos := fun pos => pos + 1

/-! # Theorems -/

/-! ## The recursion of `nextNodeArray` -/

theorem headerReadBudget_pos (s : ReadingState) : 1 ≤ headerReadBudget s := by
  unfold headerReadBudget
  exact le_max_left _ _

theorem readPtNodeArrayHeader_mNodeArrayCount (d : Dict) (s : ReadingState) :
    (readPtNodeArrayHeader d s).mNodeArrayCount = s.mNodeArrayCount + 1 := rfl

theorem readPtNodeArrayHeader_mTotalNodeCount (d : Dict) (s : ReadingState) :
    (readPtNodeArrayHeader d s).mTotalNodeCount
      = s.mTotalNodeCount + (readPtNodeArrayHeader d s).mNodeCount := rfl

theorem isInvalidPtNodeArray_eq_false {s : ReadingState} (hs : isInvalidPtNodeArray s = false) :
    0 ≤ s.mNodeCount ∧ s.mTotalNodeCount ≤ 100000 ∧ s.mNodeArrayCount ≤ 100000 := by
  simp only [isInvalidPtNodeArray, MAX_CHILD_COUNT_TO_AVOID_INFINITE_LOOP,
    MAX_NODE_ARRAY_COUNT_TO_AVOID_INFINITE_LOOP, Bool.or_eq_false_iff,
    decide_eq_false_iff_not, not_lt, gt_iff_lt] at hs
  exact ⟨hs.1.1, hs.1.2, hs.2⟩

/-- After a header read that was accepted, the budget of header reads is one less. -/
theorem headerReadBudget_succ_le (s t : ReadingState) {n : Nat}
    (h1 : t.mNodeArrayCount = s.mNodeArrayCount + 1) (h2 : t.mNodeArrayCount ≤ 100000)
    (hn : headerReadBudget s ≤ n + 1) : headerReadBudget t ≤ n := by
  simp only [headerReadBudget, MAX_NODE_ARRAY_COUNT_TO_AVOID_INFINITE_LOOP] at hn ⊢
  have h3 : (100000 + 1 - s.mNodeArrayCount).toNat ≤ n + 1 := le_trans (le_max_right _ _) hn
  have h4 : 1 ≤ n := by omega
  exact max_le h4 (by omega)

/-- The body of `followForwardLink` calls `next` on a state with the same node-array
counter, if it calls it. -/
theorem followForwardLinkWith_congr (d : Dict) (f g : Helper → Helper) (h : Helper)
    (hfg : ∀ k : Helper,
      k.mReadingState.mNodeArrayCount = h.mReadingState.mNodeArrayCount → f k = g k) :
    followForwardLinkWith d f h = followForwardLinkWith d g h := by
  unfold followForwardLinkWith
  dsimp only
  split
  · exact hfg _ rfl
  · rfl

/-- More fuel than the budget changes nothing. -/
theorem nextNodeArrayFuel_stable (d : Dict) :
    ∀ (n m : Nat) (h : Helper), headerReadBudget h.mReadingState ≤ n →
      headerReadBudget h.mReadingState ≤ m → nextNodeArrayFuel d n h = nextNodeArrayFuel d m h
  | 0, _, h, hn, _ => absurd (headerReadBudget_pos h.mReadingState) (by omega)
  | _ + 1, 0, h, _, hm => absurd (headerReadBudget_pos h.mReadingState) (by omega)
  | n + 1, m + 1, h, hn, hm => by
    simp only [nextNodeArrayFuel]
    split
    · rfl
    · rename_i hinv
      have hok := (isInvalidPtNodeArray_eq_false (Bool.eq_false_iff.mpr hinv)).2.2
      split
      · apply followForwardLinkWith_congr
        intro k hk
        apply nextNodeArrayFuel_stable d n m
        · exact headerReadBudget_succ_le h.mReadingState _ hk (hk ▸ hok) hn
        · exact headerReadBudget_succ_le h.mReadingState _ hk (hk ▸ hok) hm
      · rfl

/-- The body of `nextNodeArray`, lines 75-108, with its call of `followForwardLink`. -/
theorem nextNodeArray_eq (d : Dict) (h : Helper) :
    nextNodeArray d h =
      if isInvalidPtNodeArray (readPtNodeArrayHeader d h.mReadingState) then
        { h with
          mIsError := true
          mReadingState :=
            { readPtNodeArrayHeader d h.mReadingState with mPos := d.NOT_A_DICT_POS } }
      else if (readPtNodeArrayHeader d h.mReadingState).mNodeCount = 0 then
        followForwardLink d { h with mReadingState := readPtNodeArrayHeader d h.mReadingState }
      else
        { h with mReadingState := readPtNodeArrayHeader d h.mReadingState } := by
  obtain ⟨n, hn⟩ : ∃ n, headerReadBudget h.mReadingState = n + 1 :=
    ⟨headerReadBudget h.mReadingState - 1, by have := headerReadBudget_pos h.mReadingState; omega⟩
  unfold nextNodeArray
  rw [hn]
  simp only [nextNodeArrayFuel]
  split
  · rfl
  · rename_i hinv
    have hok := (isInvalidPtNodeArray_eq_false (Bool.eq_false_iff.mpr hinv)).2.2
    split
    · unfold followForwardLink
      apply followForwardLinkWith_congr
      intro k hk
      unfold nextNodeArray
      apply nextNodeArrayFuel_stable d
      · exact headerReadBudget_succ_le h.mReadingState _ hk (hk ▸ hok) (le_of_eq hn)
      · exact le_rfl
    · rfl

/-- The body of `followForwardLink`, lines 111-131. -/
theorem followForwardLink_eq (d : Dict) (h : Helper) :
    followForwardLink d h =
      if d.isValidForwardLinkPosition (readForwardLinkField d h.mReadingState) then
        nextNodeArray d { h with mReadingState := { h.mReadingState with
          mPosOfLastForwardLinkField := h.mReadingState.mPos
          mPos := h.mReadingState.mPos + readForwardLinkField d h.mReadingState } }
      else
        { h with mReadingState := { h.mReadingState with
          mPosOfLastForwardLinkField := h.mReadingState.mPos
          mPos := d.NOT_A_DICT_POS } } := rfl

/-- A result of a state `k` that `h` was moved to is a result of `h`. -/
theorem Landed.of_le {d : Dict} {h k r : Helper} (hl : Landed d 1 k r) (i : Int) (hi : i ≤ 1)
    (hs : k.mReadingStateStack = h.mReadingStateStack) (hf : k.mIsError = h.mIsError)
    (hc : h.mReadingState.mNodeArrayCount ≤ k.mReadingState.mNodeArrayCount) :
    Landed d i h r := by
  refine ⟨hl.stack.trans hs, fun hh => hl.flag (hf.trans hh), ?_, fun hr => ?_, fun hp => ?_⟩
  · have := hl.count
    omega
  · have := hl.raised (hf ▸ hr)
    omega
  · have h1 := hl.node hp
    have h2 := hl.count
    exact ⟨h1.1.trans hf, by omega, h1.2.2⟩

theorem nextNodeArray_landed_aux (d : Dict) :
    ∀ (n : Nat) (h : Helper), headerReadBudget h.mReadingState ≤ n →
      Landed d 1 h (nextNodeArray d h)
  | 0, h, hn => absurd (headerReadBudget_pos h.mReadingState) (by omega)
  | n + 1, h, hn => by
    rw [nextNodeArray_eq]
    split
    · exact ⟨rfl, fun _ => rfl, le_of_eq rfl, fun _ => le_of_eq rfl, fun hp => absurd rfl hp⟩
    · rename_i hinv
      have hok := isInvalidPtNodeArray_eq_false (Bool.eq_false_iff.mpr hinv)
      split
      · rw [followForwardLink_eq]
        split
        · have hl := nextNodeArray_landed_aux d n
            { h with mReadingState := { readPtNodeArrayHeader d h.mReadingState with
              mPosOfLastForwardLinkField := (readPtNodeArrayHeader d h.mReadingState).mPos
              mPos := (readPtNodeArrayHeader d h.mReadingState).mPos
                + readForwardLinkField d (readPtNodeArrayHeader d h.mReadingState) } }
            (headerReadBudget_succ_le h.mReadingState _ rfl hok.2.2 hn)
          have hc : h.mReadingState.mNodeArrayCount
              ≤ (readPtNodeArrayHeader d h.mReadingState).mNodeArrayCount := by
            rw [readPtNodeArrayHeader_mNodeArrayCount]
            omega
          exact hl.of_le 1 le_rfl rfl rfl hc
        · exact ⟨rfl, fun hf => hf, le_of_eq rfl, fun _ => le_of_eq rfl,
            fun hp => absurd rfl hp⟩
      · rename_i hne
        refine ⟨rfl, fun hf => hf, le_of_eq rfl, fun _ => le_of_eq rfl,
          fun _ => ⟨rfl, le_of_eq rfl, hok.2.2, ?_, hok.2.1⟩⟩
        have h0 := hok.1
        change 0 ≤ (readPtNodeArrayHeader d h.mReadingState).mNodeCount at h0
        change 1 ≤ (readPtNodeArrayHeader d h.mReadingState).mNodeCount
        omega

/-- The result of `nextNodeArray`. -/
theorem nextNodeArray_landed (d : Dict) (h : Helper) : Landed d 1 h (nextNodeArray d h) :=
  nextNodeArray_landed_aux d _ h le_rfl

/-- The result of `followForwardLink`. -/
theorem followForwardLink_landed (d : Dict) (h : Helper) :
    Landed d 0 h (followForwardLink d h) := by
  rw [followForwardLink_eq]
  split
  · exact (nextNodeArray_landed d
      { h with mReadingState := { h.mReadingState with
        mPosOfLastForwardLinkField := h.mReadingState.mPos
        mPos := h.mReadingState.mPos + readForwardLinkField d h.mReadingState } }).of_le
      0 (by decide) rfl rfl (le_of_eq rfl)
  · exact ⟨rfl, fun hf => hf, by simp, fun hf => absurd rfl hf, fun hp => absurd rfl hp⟩

/-! ## The check of a header read -/

/-- C4. A header read of `nextNodeArray`, made with the error flag unset, flags the error (the
flag is set with the node-array counter one above what it was, so by the first header read)
if and only if the decoded node count is negative, or the total node count with that count
added is above 100000, or the node-array counter counted up by one is above 100000. When it
does, the result is the state after the header read with the position at `NOT_A_DICT_POS`:
no forward link was followed. Otherwise the header is accepted with the flag untouched, in
particular with both totals exactly 100000. -/
theorem nextNodeArray_flags_error_iff (d : Dict) (h : Helper) (hflag : h.mIsError = false) :
    let count := (d.getPtNodeArraySizeAndAdvancePosition
      (d.isInAdditionalBuffer h.mReadingState.mPos)
      (toBufferPos d (d.isInAdditionalBuffer h.mReadingState.mPos) h.mReadingState.mPos)).1
    let exceeded := count < 0 ∨ h.mReadingState.mTotalNodeCount + count > 100000
      ∨ h.mReadingState.mNodeArrayCount + 1 > 100000
    (((nextNodeArray d h).mIsError = true
        ∧ (nextNodeArray d h).mReadingState.mNodeArrayCount
          = h.mReadingState.mNodeArrayCount + 1) ↔ exceeded)
    ∧ (exceeded → nextNodeArray d h =
        { h with
          mIsError := true
          mReadingState :=
            { readPtNodeArrayHeader d h.mReadingState with mPos := d.NOT_A_DICT_POS } })
    ∧ (¬ exceeded → nextNodeArray d h =
        if count = 0 then
          followForwardLink d { h with mReadingState := readPtNodeArrayHeader d h.mReadingState }
        else { h with mReadingState := readPtNodeArrayHeader d h.mReadingState })
    ∧ (0 < count → h.mReadingState.mTotalNodeCount + count = 100000 →
        h.mReadingState.mNodeArrayCount + 1 = 100000 →
        nextNodeArray d h = { h with mReadingState := readPtNodeArrayHeader d h.mReadingState }
          ∧ (nextNodeArray d h).mIsError = false) := by
  intro count exceeded
  have hinv : isInvalidPtNodeArray (readPtNodeArrayHeader d h.mReadingState) = true
      ↔ exceeded := by
    simp only [isInvalidPtNodeArray, MAX_CHILD_COUNT_TO_AVOID_INFINITE_LOOP,
      MAX_NODE_ARRAY_COUNT_TO_AVOID_INFINITE_LOOP, Bool.or_eq_true, decide_eq_true_eq,
      or_assoc]
    exact Iff.rfl
  have hbad : exceeded → nextNodeArray d h =
      { h with
        mIsError := true
        mReadingState :=
          { readPtNodeArrayHeader d h.mReadingState with mPos := d.NOT_A_DICT_POS } } := by
    intro hb
    rw [nextNodeArray_eq, if_pos (hinv.mpr hb)]
  have hgood : ¬ exceeded → nextNodeArray d h =
      if count = 0 then
        followForwardLink d { h with mReadingState := readPtNodeArrayHeader d h.mReadingState }
      else { h with mReadingState := readPtNodeArrayHeader d h.mReadingState } := by
    intro hb
    rw [nextNodeArray_eq, if_neg (fun hc => hb (hinv.mp hc))]
    rfl
  refine ⟨⟨fun hr => ?_, fun hb => ?_⟩, hbad, hgood, fun h1 h2 h3 => ?_⟩
  · by_contra hb
    rw [hgood hb] at hr
    by_cases hc : count = 0
    · rw [if_pos hc] at hr
      have hl := followForwardLink_landed d
        { h with mReadingState := readPtNodeArrayHeader d h.mReadingState }
      have h1 := hl.raised (by rw [hr.1]; exact fun hh => Bool.false_ne_true (hflag ▸ hh.symm))
      have h2 := hr.2
      change h.mReadingState.mNodeArrayCount + 1 + 1 ≤ _ at h1
      omega
    · rw [if_neg hc, hflag] at hr
      exact Bool.false_ne_true hr.1
  · rw [hbad hb]
    exact ⟨rfl, rfl⟩
  · have hb : ¬ exceeded := by
      intro hb
      rcases hb with hb | hb | hb <;> omega
    have hc : ¬ count = 0 := by omega
    rw [hgood hb, if_neg hc]
    exact ⟨rfl, hflag⟩

/-- A header with a negative count, read with the flag unset, flags the error. -/
theorem nextNodeArray_flags_error_iff_witness :
    (sampleHelper 60).mIsError = false
      ∧ nextNodeArray sampleDict (sampleHelper 60) =
        { sampleHelper 60 with
          mIsError := true
          mReadingState :=
            { readPtNodeArrayHeader sampleDict (sampleHelper 60).mReadingState with
              mPos := sampleDict.NOT_A_DICT_POS } } :=
  ⟨rfl, (nextNodeArray_flags_error_iff sampleDict (sampleHelper 60) rfl).2.1
    (Or.inl (by decide))⟩

/-! ## Runs of the walk -/

@[simp] theorem Run.after_calls (cs : List (Call σ)) (r : Run σ κ) :
    (r.after cs).calls = cs ++ r.calls := rfl

@[simp] theorem Run.after_listener (cs : List (Call σ)) (r : Run σ κ) :
    (r.after cs).listener = r.listener := rfl

theorem stopsAtFalse_after {r : Run σ κ} (hr : StopsAtFalse r) :
    ∀ cs : List (Call σ), (∀ c ∈ cs, c.answer = true) → StopsAtFalse (r.after cs)
  | [], _ => by
    intro i c hc hf
    exact hr i c (by simpa using hc) hf
  | c0 :: cs, h0 => by
    have ih := stopsAtFalse_after hr cs (fun c hc => h0 c (List.mem_cons_of_mem _ hc))
    intro i c hc hf
    cases i with
    | zero =>
      simp only [Run.after_calls, List.cons_append, List.getElem?_cons_zero,
        Option.some.injEq] at hc
      rw [← hc, h0 c0 (List.mem_cons_self _ _)] at hf
      exact absurd hf (by decide)
    | succ i =>
      simp only [Run.after_calls, List.cons_append, List.getElem?_cons_succ] at hc
      obtain ⟨h1, h2, h3⟩ := ih i c (by simpa using hc) hf
      refine ⟨h1, ?_, h3⟩
      simp only [Run.after_calls, List.cons_append, List.length_cons] at h2 ⊢
      omega

theorem stopsAtFalse_single (c : Call σ) (b : Bool) (l : κ) (hb : c.answer = false → b = false) :
    StopsAtFalse ({ ret := some b, calls := [c], helper := c.helper, listener := l } : Run σ κ) := by
  intro i c1 hc hf
  cases i with
  | zero =>
    simp only [List.getElem?_cons_zero, Option.some.injEq] at hc
    subst hc
    exact ⟨by rw [hb hf], rfl, rfl⟩
  | succ i => simp at hc

theorem traverseLoop_stopsAtFalse (ops : Ops σ) (listener : TraversingEventListener κ) :
    ∀ (fuel : Nat) (v : Bool) (h : σ) (l : κ), StopsAtFalse (traverseLoop ops listener fuel v h l)
  | 0, _, _, _ => by
    intro i c hc _
    simp [traverseLoop] at hc
  | fuel + 1, v, h, l => by
    have ih := traverseLoop_stopsAtFalse ops listener fuel
    simp only [traverseLoop]
    split
    · exact stopsAtFalse_single ⟨Event.onAscend, h, _⟩ _ _ (fun hf => by
        rw [show (listener.onAscend l).1 = false from hf]; rfl)
    · split
      · split
        · split
          · exact stopsAtFalse_single ⟨Event.onDescend, h, false⟩ _ _ (fun _ => rfl)
          · exact stopsAtFalse_after (ih _ _ _) _ (by simp)
        · exact ih _ _ _
      · split
        · exact stopsAtFalse_single ⟨_, h, false⟩ _ _ (fun _ => rfl)
        · split
          · split
            · intro i c hc hf
              match i, hc with
              | 0, hc =>
                simp only [List.getElem?_cons_zero, Option.some.injEq] at hc
                subst hc
                exact absurd hf (by simp)
              | 1, hc =>
                simp only [List.getElem?_cons_succ, List.getElem?_cons_zero,
                  Option.some.injEq] at hc
                subst hc
                exact ⟨rfl, rfl, rfl⟩
              | i + 2, hc => simp at hc
            · exact stopsAtFalse_after (ih _ _ _) _ (by simp)
          · exact stopsAtFalse_after (ih _ _ _) _ (by simp)

theorem traverse_stopsAtFalse (ops : Ops σ) (listener : TraversingEventListener κ)
    (fuel : Nat) (h : σ) (l : κ) :
    StopsAtFalse (traverseAllPtNodesInPostorderDepthFirstManner ops listener fuel h l) := by
  unfold traverseAllPtNodesInPostorderDepthFirstManner
  dsimp only
  split
  · exact stopsAtFalse_single ⟨Event.onDescend, h, false⟩ _ _ (fun _ => rfl)
  · exact stopsAtFalse_after (traverseLoop_stopsAtFalse ops listener fuel _ _ _) _ (by simp)

theorem traverseLoop_at_end (ops : Ops σ) (listener : TraversingEventListener κ) (fuel : Nat)
    (v : Bool) (h : σ) (l : κ) (hend : ops.isEnd h = true) :
    ∀ c ∈ (traverseLoop ops listener fuel v h l).calls, c.event = Event.onAscend := by
  cases fuel with
  | zero => simp [traverseLoop]
  | succ fuel => simp [traverseLoop, hend]

theorem onlyAscendsAfterEnd_single (ops : Ops σ) (c0 : Call σ) (b : Option Bool) (h : σ) (l : κ)
    (h0 : c0.answer = false ∨ c0.event = Event.onAscend) :
    OnlyAscendsAfterEnd ops ({ ret := b, calls := [c0], helper := h, listener := l } : Run σ κ) := by
  intro pre post c hcalls hans hcase
  rcases List.cons_eq_append_iff.mp hcalls with ⟨rfl, h2⟩ | ⟨pre1, rfl, h2⟩
  · simp only [List.cons.injEq] at h2
    obtain ⟨rfl, rfl⟩ := h2
    rcases h0 with h0 | h0
    · rw [hans] at h0
      exact absurd h0 (by decide)
    · rcases hcase with ⟨h3, _⟩ | ⟨⟨n, h3⟩, _⟩ <;> rw [h0] at h3 <;> cases h3
  · simp at h2

theorem traverseLoop_onlyAscendsAfterEnd (ops : Ops σ) (listener : TraversingEventListener κ) :
    ∀ (fuel : Nat) (v : Bool) (h : σ) (l : κ),
      OnlyAscendsAfterEnd ops (traverseLoop ops listener fuel v h l)
  | 0, _, _, _ => by
    intro pre post c hcalls
    simp [traverseLoop] at hcalls
  | fuel + 1, v, h, l => by
    have ih := traverseLoop_onlyAscendsAfterEnd ops listener fuel
    simp only [traverseLoop]
    split
    · exact onlyAscendsAfterEnd_single ops _ _ _ _ (Or.inr rfl)
    · rename_i hnotend
      split
      · split
        · split
          · exact onlyAscendsAfterEnd_single ops _ _ _ _ (Or.inl rfl)
          · intro pre post c hcalls hans hcase
            simp only [Run.after_calls, List.singleton_append] at hcalls
            rcases List.cons_eq_append_iff.mp hcalls with ⟨rfl, h2⟩ | ⟨pre1, rfl, h2⟩
            · simp only [List.cons.injEq] at h2
              obtain ⟨rfl, rfl⟩ := h2
              rcases hcase with ⟨_, h3⟩ | ⟨⟨n, h3⟩, _⟩
              · exact traverseLoop_at_end ops listener fuel _ _ _ h3
              · cases h3
            · exact ih _ _ _ pre1 post c h2 hans hcase
        · exact ih _ _ _
      · split
        · exact onlyAscendsAfterEnd_single ops _ _ _ _ (Or.inl rfl)
        · split
          · rename_i hend
            split
            · intro pre post c hcalls hans hcase
              rcases List.cons_eq_append_iff.mp hcalls with ⟨rfl, h2⟩ | ⟨pre1, rfl, h2⟩
              · simp only [List.cons.injEq] at h2
                obtain ⟨rfl, rfl⟩ := h2
                intro c2 hc2
                rw [List.mem_singleton.mp hc2]
              · rcases List.cons_eq_append_iff.mp h2 with ⟨rfl, h3⟩ | ⟨pre2, rfl, h3⟩
                · simp only [List.cons.injEq] at h3
                  rw [h3.1] at hans
                  exact absurd hans (by simp)
                · simp at h3
            · intro pre post c hcalls hans hcase
              simp only [Run.after_calls, List.cons_append, List.nil_append] at hcalls
              rcases List.cons_eq_append_iff.mp hcalls with ⟨rfl, h2⟩ | ⟨pre1, rfl, h2⟩
              · simp only [List.cons.injEq] at h2
                obtain ⟨rfl, rfl⟩ := h2
                rcases hcase with ⟨h3, _⟩ | ⟨_, _, h3⟩
                · cases h3
                · intro c2 hc2
                  rcases List.mem_cons.mp hc2 with rfl | hc2
                  · rfl
                  · exact traverseLoop_at_end ops listener fuel _ _ _ h3 c2 hc2
              · rcases List.cons_eq_append_iff.mp h2 with ⟨rfl, h3⟩ | ⟨pre2, rfl, h3⟩
                · simp only [List.cons.injEq] at h3
                  rcases hcase with ⟨h4, _⟩ | ⟨⟨n, h4⟩, _⟩ <;> rw [h3.1] at h4 <;> cases h4
                · exact ih _ _ _ pre2 post c h3 hans hcase
          · rename_i hnotend1
            intro pre post c hcalls hans hcase
            simp only [Run.after_calls, List.singleton_append] at hcalls
            rcases List.cons_eq_append_iff.mp hcalls with ⟨rfl, h2⟩ | ⟨pre1, rfl, h2⟩
            · simp only [List.cons.injEq] at h2
              obtain ⟨rfl, rfl⟩ := h2
              rcases hcase with ⟨h3, _⟩ | ⟨_, h3, _⟩
              · cases h3
              · exact absurd h3 hnotend1
            · exact ih _ _ _ pre1 post c h2 hans hcase

theorem helperOps_keepsError (d : Dict) : (helperOps d).KeepsError where
  push := fun _ he => he
  child := fun _ he => (nextNodeArray_landed d _).flag he
  sibling := fun h he => by
    show (readNextSiblingNode d h).mIsError = true
    unfold readNextSiblingNode
    dsimp only
    split
    · exact (followForwardLink_landed d _).flag he
    · exact he
  pop := fun h he => by
    show (popReadingStateFromStack h).mIsError = true
    unfold popReadingStateFromStack
    split
    · exact he
    · exact he

/-! ## The member functions on the helper -/

theorem readChildNode_landed (d : Dict) (h : Helper) : Landed d 1 h (readChildNode d h) :=
  (nextNodeArray_landed d _).of_le 1 le_rfl rfl rfl (le_of_eq rfl)

theorem readNextSiblingNode_stack (d : Dict) (h : Helper) :
    (readNextSiblingNode d h).mReadingStateStack = h.mReadingStateStack := by
  unfold readNextSiblingNode
  dsimp only
  split
  · exact (followForwardLink_landed d _).stack
  · rfl

/-- A call of `readNextSiblingNode` that changed the error flag left the cursor at the end. -/
theorem readNextSiblingNode_flagged (d : Dict) (h : Helper)
    (hf : (readNextSiblingNode d h).mIsError ≠ h.mIsError) :
    isEnd d (readNextSiblingNode d h) = true := by
  unfold readNextSiblingNode at hf ⊢
  dsimp only at hf ⊢
  split
  · rename_i hc
    rw [if_pos hc] at hf
    by_contra hne
    exact hf ((followForwardLink_landed d _).node (by simpa [isEnd] using hne)).1
  · rename_i hc
    rw [if_neg hc] at hf
    exact absurd rfl hf

/-- A call of `readChildNode` that changed the error flag left the cursor at the end. -/
theorem readChildNode_flagged (d : Dict) (h : Helper)
    (hf : (readChildNode d h).mIsError ≠ h.mIsError) : isEnd d (readChildNode d h) = true := by
  by_contra hne
  exact hf ((readChildNode_landed d h).node (by simpa [isEnd] using hne)).1

theorem popReadingStateFromStack_nil (h : Helper) (hs : h.mReadingStateStack = []) :
    popReadingStateFromStack h = h := by
  unfold popReadingStateFromStack
  rw [hs]

/-! ## Claims on the returned value and on early stops -/

/-- C8. When the `N`-th callback of a walk answers `false`, the walk returns `false`, the
listener was called `N` times in all, and the helper is left as it was at that callback:
nothing is invoked and the cursor is not moved after a callback answered `false`. This holds
whatever the member functions of the class header do. -/
theorem traverse_stops_at_first_false {σ κ : Type} (ops : Ops σ)
    (listener : TraversingEventListener κ) (fuel : Nat) (h : σ) (l : κ) (N : Nat) (hN : 1 ≤ N)
    (c : Call σ)
    (hc : (traverseAllPtNodesInPostorderDepthFirstManner ops listener fuel h l).calls[N - 1]?
      = some c)
    (hfalse : c.answer = false) :
    (traverseAllPtNodesInPostorderDepthFirstManner ops listener fuel h l).ret = some false
      ∧ (traverseAllPtNodesInPostorderDepthFirstManner ops listener fuel h l).calls.length = N
      ∧ (traverseAllPtNodesInPostorderDepthFirstManner ops listener fuel h l).helper
        = c.helper := by
  obtain ⟨h1, h2, h3⟩ := traverse_stopsAtFalse ops listener fuel h l (N - 1) c hc hfalse
  exact ⟨h1, by omega, h3⟩

/-- A listener that answers `false` to its third callback sees three callbacks. -/
theorem traverse_stops_at_first_false_witness :
    (traverseAllPtNodesInPostorderDepthFirstManner (helperOps sampleDict) (listenerStopAt 3) 20
        (sampleStart 0) 0).calls[3 - 1]? = some sampleThirdCall
    ∧ (traverseAllPtNodesInPostorderDepthFirstManner (helperOps sampleDict) (listenerStopAt 3) 20
        (sampleStart 0) 0).ret = some false
    ∧ (traverseAllPtNodesInPostorderDepthFirstManner (helperOps sampleDict) (listenerStopAt 3) 20
        (sampleStart 0) 0).calls.length = 3
    ∧ (traverseAllPtNodesInPostorderDepthFirstManner (helperOps sampleDict) (listenerStopAt 3) 20
        (sampleStart 0) 0).helper = sampleThirdCall.helper :=
  ⟨by decide, traverse_stops_at_first_false (helperOps sampleDict) (listenerStopAt 3) 20
    (sampleStart 0) 0 3 (by decide) sampleThirdCall (by decide) rfl⟩

/-! ## Claims on errors and early stops -/

/-- C7, at its failing input. In the walk of the sample dictionary from 40 the header read that
follows the forward link behind node 51 flags the error (the flag is unset at the visit of 51
and set at the next callback), and node 41 is visited afterwards. -/
theorem traverse_visits_after_error :
    (traverseAllPtNodesInPostorderDepthFirstManner (helperOps sampleDict) listenerAlwaysTrue 20
        (sampleStart 40) ()).calls.map (fun c => (c.event, c.helper.mIsError))
      = [(Event.onDescend, false), (Event.onDescend, false), (Event.onVisitingPtNode 51, false),
          (Event.onAscend, true), (Event.onVisitingPtNode 41, true), (Event.onAscend, true),
          (Event.onAscend, true)] := by
  decide

/-- What holds of C7: once `nextNodeArray` has flagged an error in the array that the walk
entered by descending to a child, or in the array that it entered by a forward link while
advancing to the next sibling with nothing on the state stack, every callback invoked
afterwards is `onAscend`: there is no `onDescend` and no `onVisitingPtNode`. Here `c` is the
callback
after which the header was read, `pre` the calls before it and `post` the calls after it;
the descent of the first call, from the root, reads no header. -/
theorem traverse_halts_after_error {κ : Type} (d : Dict) (listener : TraversingEventListener κ)
    (fuel : Nat) (h : Helper) (l : κ) (pre post : List (Call Helper)) (c : Call Helper)
    (hcalls : (traverseAllPtNodesInPostorderDepthFirstManner (helperOps d) listener fuel h
      l).calls = pre ++ c :: post)
    (hans : c.answer = true) (hunset : c.helper.mIsError = false)
    (hflagged :
      (pre ≠ [] ∧ c.event = Event.onDescend
          ∧ (readChildNode d (pushReadingStateToStack c.helper)).mIsError = true)
        ∨ ((∃ n, c.event = Event.onVisitingPtNode n) ∧ c.helper.mReadingStateStack = []
          ∧ (readNextSiblingNode d c.helper).mIsError = true)) :
    ∀ c2 ∈ post, c2.event = Event.onAscend := by
  have hcase : (c.event = Event.onDescend
        ∧ (helperOps d).isEnd ((helperOps d).readChildNode
          ((helperOps d).pushReadingStateToStack c.helper)) = true)
      ∨ ((∃ n, c.event = Event.onVisitingPtNode n)
        ∧ (helperOps d).isEnd ((helperOps d).readNextSiblingNode c.helper) = true
        ∧ (helperOps d).isEnd ((helperOps d).popReadingStateFromStack
          ((helperOps d).readNextSiblingNode c.helper)) = true) := by
    rcases hflagged with ⟨_, h1, h2⟩ | ⟨h1, h2, h3⟩
    · refine Or.inl ⟨h1, readChildNode_flagged d (pushReadingStateToStack c.helper) ?_⟩
      rw [h2]
      show true ≠ c.helper.mIsError
      rw [hunset]
      decide
    · have h4 : isEnd d (readNextSiblingNode d c.helper) = true :=
        readNextSiblingNode_flagged d _ (by rw [h3, hunset]; decide)
      refine Or.inr ⟨h1, h4, ?_⟩
      show isEnd d (popReadingStateFromStack (readNextSiblingNode d c.helper)) = true
      rw [popReadingStateFromStack_nil _ ((readNextSiblingNode_stack d _).trans h2)]
      exact h4
  unfold traverseAllPtNodesInPostorderDepthFirstManner at hcalls
  dsimp only at hcalls
  split at hcalls
  · rcases List.cons_eq_append_iff.mp hcalls with ⟨rfl, h2⟩ | ⟨pre1, rfl, h2⟩
    · simp only [List.nil_append, List.cons.injEq] at h2
      rw [h2.2]
      simp
    · simp at h2
  · simp only [Run.after_calls, List.singleton_append] at hcalls
    rcases List.cons_eq_append_iff.mp hcalls with ⟨rfl, h2⟩ | ⟨pre1, rfl, h2⟩
    · rcases hflagged with ⟨h3, _⟩ | ⟨⟨n, h3⟩, _⟩
      · exact absurd rfl h3
      · simp only [List.nil_append, List.cons.injEq] at h2
        rw [h2.1] at h3
        cases h3
    · exact traverseLoop_onlyAscendsAfterEnd (helperOps d) listener fuel _ _ _ pre1 post c h2
        hans hcase

/-- In the walk of the sample dictionary from 90 the header of the child array of node 91 is
invalid: after the descent only the final `onAscend` is invoked. -/
theorem traverse_halts_after_error_witness :
    (traverseAllPtNodesInPostorderDepthFirstManner (helperOps sampleDict) listenerAlwaysTrue 20
        (sampleStart 90) ()).calls
      = [⟨Event.onDescend, sampleStart 90, true⟩] ++ ⟨Event.onDescend, sampleStart 90, true⟩
        :: [⟨Event.onAscend,
          readChildNode sampleDict (pushReadingStateToStack (sampleStart 90)), true⟩]
    ∧ (readChildNode sampleDict (pushReadingStateToStack (sampleStart 90))).mIsError = true
    ∧ ∀ c2 ∈ [(⟨Event.onAscend,
          readChildNode sampleDict (pushReadingStateToStack (sampleStart 90)), true⟩ :
            Call Helper)],
        c2.event = Event.onAscend :=
  ⟨by decide, by decide,
    traverse_halts_after_error sampleDict listenerAlwaysTrue 20 (sampleStart 90) ()
      [⟨Event.onDescend, sampleStart 90, true⟩] _ ⟨Event.onDescend, sampleStart 90, true⟩
      (by decide) rfl (by decide) (Or.inl ⟨by simp, rfl, by decide⟩)⟩

/-- C9, as stated, fails. The walk of the sample dictionary from 90 starts with the error
flag unset; the header of the child array of node 91 is invalid, so the descent flags the
error and leaves the loop, and the final `onAscend` of line 67 is the third callback. The
listener answers `false` to it: the walk returns `false` because of the listener, with the
error flag set. -/
theorem traverse_early_stop_with_flag_set :
    (sampleStart 90).mIsError = false
    ∧ (traverseAllPtNodesInPostorderDepthFirstManner (helperOps sampleDict) (listenerStopAt 3) 20
        (sampleStart 90) 0).ret = some false
    ∧ (traverseAllPtNodesInPostorderDepthFirstManner (helperOps sampleDict) (listenerStopAt 3) 20
        (sampleStart 90) 0).calls.map (fun c => (c.event, c.answer))
      = [(Event.onDescend, true), (Event.onDescend, true), (Event.onAscend, false)]
    ∧ (traverseAllPtNodesInPostorderDepthFirstManner (helperOps sampleDict) (listenerStopAt 3) 20
        (sampleStart 90) 0).helper.mIsError = true := by
  decide

/-- C9, amended. Whenever the walk returns `false` because a callback answered `false`, and
the error flag was unset when that callback was invoked (no header read had flagged an error
before it), the error flag is unset on return. -/
theorem traverse_early_stop_flag_unset {κ : Type} (d : Dict)
    (listener : TraversingEventListener κ) (fuel : Nat) (h : Helper) (l : κ) (c : Call Helper)
    (hc : c ∈ (traverseAllPtNodesInPostorderDepthFirstManner (helperOps d) listener fuel h
      l).calls)
    (hfalse : c.answer = false) (hunset : c.helper.mIsError = false) :
    (traverseAllPtNodesInPostorderDepthFirstManner (helperOps d) listener fuel h l).ret
        = some false
      ∧ (traverseAllPtNodesInPostorderDepthFirstManner (helperOps d) listener fuel h
        l).helper.mIsError = false := by
  obtain ⟨i, hi⟩ := List.getElem?_of_mem hc
  obtain ⟨h1, _, h3⟩ := traverse_stopsAtFalse (helperOps d) listener fuel h l i c hi hfalse
  exact ⟨h1, by rw [h3, hunset]⟩

/-- The walk of the sample dictionary from 0, stopped at the visit of node 11, returns with
the error flag unset. -/
theorem traverse_early_stop_flag_unset_witness :
    sampleThirdCall ∈ (traverseAllPtNodesInPostorderDepthFirstManner (helperOps sampleDict)
        (listenerStopAt 3) 20 (sampleStart 0) 0).calls
    ∧ (traverseAllPtNodesInPostorderDepthFirstManner (helperOps sampleDict) (listenerStopAt 3) 20
        (sampleStart 0) 0).ret = some false
    ∧ (traverseAllPtNodesInPostorderDepthFirstManner (helperOps sampleDict) (listenerStopAt 3) 20
        (sampleStart 0) 0).helper.mIsError = false :=
  ⟨by decide, traverse_early_stop_flag_unset sampleDict (listenerStopAt 3) 20 (sampleStart 0) 0
    sampleThirdCall (by decide) rfl rfl⟩

/-! ## One iteration of the loop -/

theorem Run.after_after (cs1 cs2 : List (Call σ)) (r : Run σ κ) :
    (r.after cs1).after cs2 = r.after (cs2 ++ cs1) := by
  simp [Run.after]

theorem traverseLoop_step_end (ops : Ops σ) (listener : TraversingEventListener κ) (fuel : Nat)
    (v : Bool) (h : σ) (l : κ) (hend : ops.isEnd h = true) :
    traverseLoop ops listener (fuel + 1) v h l =
      { ret := some (if (listener.onAscend l).1 then !ops.isError h else false)
        calls := [⟨Event.onAscend, h, (listener.onAscend l).1⟩]
        helper := h, listener := (listener.onAscend l).2 } := by
  simp [traverseLoop, hend]

theorem traverseLoop_step_leaf (ops : Ops σ) (listener : TraversingEventListener κ) (fuel : Nat)
    (h : σ) (l : κ) (hend : ops.isEnd h = false) (hkids : ops.hasChildren h = false) :
    traverseLoop ops listener (fuel + 1) false h l = traverseLoop ops listener fuel true h l := by
  simp [traverseLoop, hend, hkids]

theorem traverseLoop_step_descend (ops : Ops σ) (listener : TraversingEventListener κ)
    (fuel : Nat) (h : σ) (l : κ) (hend : ops.isEnd h = false) (hkids : ops.hasChildren h = true)
    (hans : (listener.onDescend l).1 = true) :
    traverseLoop ops listener (fuel + 1) false h l =
      (traverseLoop ops listener fuel false (ops.readChildNode (ops.pushReadingStateToStack h))
        (listener.onDescend l).2).after [⟨Event.onDescend, h, true⟩] := by
  simp [traverseLoop, hend, hkids, hans]

theorem traverseLoop_step_descend_stop (ops : Ops σ) (listener : TraversingEventListener κ)
    (fuel : Nat) (h : σ) (l : κ) (hend : ops.isEnd h = false) (hkids : ops.hasChildren h = true)
    (hans : (listener.onDescend l).1 = false) :
    traverseLoop ops listener (fuel + 1) false h l =
      { ret := some false, calls := [⟨Event.onDescend, h, false⟩], helper := h
        listener := (listener.onDescend l).2 } := by
  simp [traverseLoop, hend, hkids, hans]

theorem traverseLoop_step_visit_stop (ops : Ops σ) (listener : TraversingEventListener κ)
    (fuel : Nat) (h : σ) (l : κ) (hend : ops.isEnd h = false)
    (hans : (listener.onVisitingPtNode (ops.mNodeReader h) l).1 = false) :
    traverseLoop ops listener (fuel + 1) true h l =
      { ret := some false
        calls := [⟨Event.onVisitingPtNode (ops.mNodeReader h), h, false⟩], helper := h
        listener := (listener.onVisitingPtNode (ops.mNodeReader h) l).2 } := by
  simp [traverseLoop, hend, hans]

theorem traverseLoop_step_visit_next (ops : Ops σ) (listener : TraversingEventListener κ)
    (fuel : Nat) (h : σ) (l : κ) (hend : ops.isEnd h = false)
    (hans : (listener.onVisitingPtNode (ops.mNodeReader h) l).1 = true)
    (hnext : ops.isEnd (ops.readNextSiblingNode h) = false) :
    traverseLoop ops listener (fuel + 1) true h l =
      (traverseLoop ops listener fuel false (ops.readNextSiblingNode h)
        (listener.onVisitingPtNode (ops.mNodeReader h) l).2).after
        [⟨Event.onVisitingPtNode (ops.mNodeReader h), h, true⟩] := by
  simp [traverseLoop, hend, hans, hnext]

theorem traverseLoop_step_visit_ascend (ops : Ops σ) (listener : TraversingEventListener κ)
    (fuel : Nat) (h : σ) (l : κ) (hend : ops.isEnd h = false)
    (hans : (listener.onVisitingPtNode (ops.mNodeReader h) l).1 = true)
    (hnext : ops.isEnd (ops.readNextSiblingNode h) = true)
    (hans2 : (listener.onAscend (listener.onVisitingPtNode (ops.mNodeReader h) l).2).1 = true) :
    traverseLoop ops listener (fuel + 1) true h l =
      (traverseLoop ops listener fuel true
        (ops.popReadingStateFromStack (ops.readNextSiblingNode h))
        (listener.onAscend (listener.onVisitingPtNode (ops.mNodeReader h) l).2).2).after
        [⟨Event.onVisitingPtNode (ops.mNodeReader h), h, true⟩,
          ⟨Event.onAscend, ops.readNextSiblingNode h, true⟩] := by
  simp [traverseLoop, hend, hans, hnext, hans2]

theorem traverseLoop_step_visit_ascend_stop (ops : Ops σ) (listener : TraversingEventListener κ)
    (fuel : Nat) (h : σ) (l : κ) (hend : ops.isEnd h = false)
    (hans : (listener.onVisitingPtNode (ops.mNodeReader h) l).1 = true)
    (hnext : ops.isEnd (ops.readNextSiblingNode h) = true)
    (hans2 : (listener.onAscend (listener.onVisitingPtNode (ops.mNodeReader h) l).2).1 = false) :
    traverseLoop ops listener (fuel + 1) true h l =
      { ret := some false
        calls := [⟨Event.onVisitingPtNode (ops.mNodeReader h), h, true⟩,
          ⟨Event.onAscend, ops.readNextSiblingNode h, false⟩]
        helper := ops.readNextSiblingNode h
        listener := (listener.onAscend (listener.onVisitingPtNode (ops.mNodeReader h) l).2).2 } := by
  simp [traverseLoop, hend, hans, hnext, hans2]

/-! ## The walk of a trie -/

theorem represents_flag (d : Dict) :
    ∀ (t : Trie) (h : Helper), represents d h t = true → h.mIsError = false
  | Trie.done, h, hr => by
    simp only [represents, Bool.and_eq_true, Bool.not_eq_true'] at hr
    exact hr.2
  | Trie.leaf pos next, h, hr => by
    simp only [represents, Bool.and_eq_true] at hr
    have h1 := represents_flag d next _ hr.2
    cases hf : h.mIsError
    · rfl
    · have h2 : (readNextSiblingNode d h).mIsError = true :=
        (helperOps_keepsError d).sibling h hf
      rw [h2] at h1
      exact absurd h1 (by decide)
  | Trie.parent pos children next, h, hr => by
    simp only [represents, Bool.and_eq_true] at hr
    have h1 := represents_flag d next _ hr.2
    cases hf : h.mIsError
    · rfl
    · have h2 : (readNextSiblingNode d h).mIsError = true :=
        (helperOps_keepsError d).sibling h hf
      rw [h2] at h1
      exact absurd h1 (by decide)

theorem represents_done_iff (d : Dict) (t : Trie) (h : Helper) (hr : represents d h t = true) :
    isEnd d h = true ↔ t = Trie.done := by
  cases t with
  | done =>
    simp only [represents, Bool.and_eq_true] at hr
    simp [hr.1]
  | leaf pos next =>
    simp only [represents, Bool.and_eq_true, Bool.not_eq_true'] at hr
    simp [hr.1.1.1]
  | parent pos children next =>
    simp only [represents, Bool.and_eq_true, Bool.not_eq_true'] at hr
    simp [hr.1.1.1.1]

/-- The end of a level: the cursor is at the end, no error is flagged and the stack is the
one of the start of the level. -/
theorem levelEnd_spec (d : Dict) :
    ∀ (t : Trie) (h : Helper), represents d h t = true →
      isEnd d (levelEnd d t h) = true ∧ (levelEnd d t h).mIsError = false
        ∧ (levelEnd d t h).mReadingStateStack = h.mReadingStateStack
  | Trie.done, h, hr => by
    simp only [represents, Bool.and_eq_true, Bool.not_eq_true'] at hr
    exact ⟨hr.1, hr.2, rfl⟩
  | Trie.leaf pos next, h, hr => by
    simp only [represents, Bool.and_eq_true] at hr
    obtain ⟨h1, h2, h3⟩ := levelEnd_spec d next _ hr.2
    exact ⟨h1, h2, h3.trans (readNextSiblingNode_stack d h)⟩
  | Trie.parent pos children next, h, hr => by
    simp only [represents, Bool.and_eq_true] at hr
    obtain ⟨h1, h2, h3⟩ := levelEnd_spec d next _ hr.2
    exact ⟨h1, h2, h3.trans (readNextSiblingNode_stack d h)⟩

/-- In the postorder walk of a trie the callbacks of the children of a node, closed by their
`onAscend`, stand between the `onDescend` of the node and its visit. -/
theorem postorder_parts :
    ∀ (t : Trie) (pos : Int) (children next : Trie), Trie.parent pos children next ∈ t.parts →
      ∃ pre post, t.postorder = pre ++ Event.onDescend :: (children.postorder
        ++ Event.onAscend :: Event.onVisitingPtNode pos :: post)
  | Trie.done, _, _, _, hm => by simp [Trie.parts] at hm
  | Trie.leaf p n, pos, children, next, hm => by
    simp only [Trie.parts, List.mem_cons] at hm
    rcases hm with hm | hm
    · cases hm
    · obtain ⟨pre, post, h1⟩ := postorder_parts n pos children next hm
      exact ⟨Event.onVisitingPtNode p :: pre, post, by simp [Trie.postorder, h1]⟩
  | Trie.parent p c n, pos, children, next, hm => by
    simp only [Trie.parts, List.mem_cons, List.mem_append] at hm
    rcases hm with hm | hm | hm
    · cases hm
      exact ⟨[], n.postorder, rfl⟩
    · obtain ⟨pre, post, h1⟩ := postorder_parts c pos children next hm
      exact ⟨Event.onDescend :: pre,
        post ++ Event.onAscend :: Event.onVisitingPtNode p :: n.postorder,
        by simp [Trie.postorder, h1]⟩
    · obtain ⟨pre, post, h1⟩ := postorder_parts n pos children next hm
      exact ⟨Event.onDescend :: (c.postorder
          ++ Event.onAscend :: Event.onVisitingPtNode p :: pre), post,
        by simp [Trie.postorder, h1]⟩

theorem visitedNodes_append (cs1 cs2 : List (Call σ)) :
    visitedNodes (cs1 ++ cs2) = visitedNodes cs1 ++ visitedNodes cs2 := by
  induction cs1 with
  | nil => rfl
  | cons c cs ih =>
    simp only [List.cons_append, visitedNodes]
    split <;> simp [ih]

theorem visitedNodes_walkCalls (d : Dict) (node : Int) :
    ∀ (t : Trie) (h : Helper),
      (visitedNodes (walkCalls d t h)).count node = t.nodes.count node
  | Trie.done, _ => rfl
  | Trie.leaf pos next, h => by
    simp [walkCalls, visitedNodes, Trie.nodes, List.count_cons,
      visitedNodes_walkCalls d node next]
  | Trie.parent pos children next, h => by
    simp only [walkCalls, visitedNodes, Trie.nodes, List.count_cons, visitedNodes_append,
      List.count_append, visitedNodes_walkCalls d node next,
      visitedNodes_walkCalls d node children]
    omega

theorem visitedNodes_rootCalls (d : Dict) (node : Int) (t : Trie) (h : Helper) :
    (visitedNodes (rootCalls d t h)).count node = t.nodes.count node := by
  unfold rootCalls
  by_cases ht : t = Trie.done
  · simp [ht, visitedNodes, walkCalls, Trie.nodes]
  · simp [ht, visitedNodes, visitedNodes_append, visitedNodes_walkCalls]

/-! ## The walk of a level -/

theorem levelWalk_parent_done (d : Dict) (pos : Int) (next : Trie) (h : Helper) :
    levelWalk d (Trie.parent pos Trie.done next) h =
      { calls := [⟨Event.onDescend, h, true⟩], completed := false
        helper := readChildNode d (pushReadingStateToStack h), iterations := 1 } := by
  simp [levelWalk]

theorem levelWalk_parent_completed (d : Dict) (pos : Int) (children next : Trie) (h : Helper)
    (hc : children ≠ Trie.done)
    (hw : (levelWalk d children (readChildNode d (pushReadingStateToStack h))).completed = true) :
    levelWalk d (Trie.parent pos children next) h =
      { calls := ⟨Event.onDescend, h, true⟩
          :: ((levelWalk d children (readChildNode d (pushReadingStateToStack h))).calls
            ++ ⟨Event.onVisitingPtNode pos, h, true⟩
              :: (levelWalk d next (readNextSiblingNode d h)).calls)
        completed := (levelWalk d next (readNextSiblingNode d h)).completed
        helper := (levelWalk d next (readNextSiblingNode d h)).helper
        iterations := (levelWalk d next (readNextSiblingNode d h)).iterations
          + (levelWalk d children (readChildNode d (pushReadingStateToStack h))).iterations
          + 2 } := by
  simp [levelWalk, hc, hw]

theorem levelWalk_parent_stopped (d : Dict) (pos : Int) (children next : Trie) (h : Helper)
    (hc : children ≠ Trie.done)
    (hw : (levelWalk d children (readChildNode d (pushReadingStateToStack h))).completed
      = false) :
    levelWalk d (Trie.parent pos children next) h =
      { calls := ⟨Event.onDescend, h, true⟩
          :: (levelWalk d children (readChildNode d (pushReadingStateToStack h))).calls
        completed := false
        helper := (levelWalk d children (readChildNode d (pushReadingStateToStack h))).helper
        iterations :=
          (levelWalk d children (readChildNode d (pushReadingStateToStack h))).iterations
            + 1 } := by
  simp [levelWalk, hc, hw]

/-- The helper that the walk of a level is left with: the cursor is at the end, no error is
flagged and, when the level was walked to its end, the stack is the one of its start. -/
theorem levelWalk_spec (d : Dict) :
    ∀ (t : Trie) (h : Helper), represents d h t = true →
      isEnd d (levelWalk d t h).helper = true ∧ (levelWalk d t h).helper.mIsError = false
        ∧ ((levelWalk d t h).completed = true →
          (levelWalk d t h).helper.mReadingStateStack = h.mReadingStateStack)
  | Trie.done, h, hr => by
    simp only [represents, Bool.and_eq_true, Bool.not_eq_true'] at hr
    exact ⟨hr.1, hr.2, fun _ => rfl⟩
  | Trie.leaf pos next, h, hr => by
    simp only [represents, Bool.and_eq_true] at hr
    obtain ⟨h1, h2, h3⟩ := levelWalk_spec d next _ hr.2
    exact ⟨h1, h2, fun hc => (h3 hc).trans (readNextSiblingNode_stack d h)⟩
  | Trie.parent pos children next, h, hr => by
    simp only [represents, Bool.and_eq_true] at hr
    obtain ⟨h1, h2, h3⟩ := levelWalk_spec d next _ hr.2
    obtain ⟨h4, h5, _⟩ := levelWalk_spec d children _ hr.1.2
    by_cases hc : children = Trie.done
    · subst hc
      rw [levelWalk_parent_done]
      simp only [represents, Bool.and_eq_true, Bool.not_eq_true'] at hr
      exact ⟨hr.1.2.1, hr.1.2.2, fun hh => by simp at hh⟩
    · cases hw : (levelWalk d children (readChildNode d (pushReadingStateToStack h))).completed
      · rw [levelWalk_parent_stopped d pos children next h hc hw]
        exact ⟨h4, h5, fun hh => by simp at hh⟩
      · rw [levelWalk_parent_completed d pos children next h hc hw]
        exact ⟨h1, h2, fun hh => (h3 hh).trans (readNextSiblingNode_stack d h)⟩

/-- The pop at the end of the level of the children restores the helper of the descent. -/
theorem pop_levelWalk_children (d : Dict) (t : Trie) (h : Helper) (hf : h.mIsError = false)
    (hr : represents d (readChildNode d (pushReadingStateToStack h)) t = true)
    (hw : (levelWalk d t (readChildNode d (pushReadingStateToStack h))).completed = true) :
    popReadingStateFromStack (levelWalk d t (readChildNode d (pushReadingStateToStack h))).helper
      = h := by
  obtain ⟨_, h2, h3⟩ := levelWalk_spec d t _ hr
  have h4 : (levelWalk d t (readChildNode d (pushReadingStateToStack h))).helper.mReadingStateStack
      = h.mReadingState :: h.mReadingStateStack :=
    (h3 hw).trans (readChildNode_landed d _).stack
  unfold popReadingStateFromStack
  rw [h4]
  dsimp only
  rw [h2, ← hf]

/-- The visit of the node under the cursor, made after its children, and the walk of the
rest of its level. -/
theorem traverseLoop_visit (d : Dict) (listener : TraversingEventListener κ)
    (hL : listener.AlwaysTrue) (next : Trie) (h : Helper) (hend : isEnd d h = false)
    (hr : represents d (readNextSiblingNode d h) next = true)
    (ih : next ≠ Trie.done → ∀ l, ∃ l', ∀ fuel,
      traverseLoop (helperOps d) listener
          (fuel + (levelWalk d next (readNextSiblingNode d h)).iterations) false
          (readNextSiblingNode d h) l =
        (traverseLoop (helperOps d) listener fuel
          (levelWalk d next (readNextSiblingNode d h)).completed
          (if (levelWalk d next (readNextSiblingNode d h)).completed
            then popReadingStateFromStack (levelWalk d next (readNextSiblingNode d h)).helper
            else (levelWalk d next (readNextSiblingNode d h)).helper) l').after
          (levelWalk d next (readNextSiblingNode d h)).calls)
    (l : κ) :
    ∃ l', ∀ fuel,
      traverseLoop (helperOps d) listener
          (fuel + (levelWalk d next (readNextSiblingNode d h)).iterations + 1) true h l =
        (traverseLoop (helperOps d) listener fuel
          (levelWalk d next (readNextSiblingNode d h)).completed
          (if (levelWalk d next (readNextSiblingNode d h)).completed
            then popReadingStateFromStack (levelWalk d next (readNextSiblingNode d h)).helper
            else (levelWalk d next (readNextSiblingNode d h)).helper) l').after
          (⟨Event.onVisitingPtNode h.mReadingState.mPos, h, true⟩
            :: (levelWalk d next (readNextSiblingNode d h)).calls) := by
  by_cases hn : next = Trie.done
  · subst hn
    have hnext : isEnd d (readNextSiblingNode d h) = true :=
      (represents_done_iff d _ _ hr).mpr rfl
    exact ⟨_, fun fuel => traverseLoop_step_visit_ascend (helperOps d) listener fuel h l hend
      (hL.2.2 _ _) hnext (hL.1 _)⟩
  · have hnext : isEnd d (readNextSiblingNode d h) = false := by
      cases he : isEnd d (readNextSiblingNode d h)
      · rfl
      · exact absurd ((represents_done_iff d _ _ hr).mp he) hn
    obtain ⟨l', hl'⟩ := ih hn (listener.onVisitingPtNode h.mReadingState.mPos l).2
    refine ⟨l', fun fuel => ?_⟩
    refine (traverseLoop_step_visit_next (helperOps d) listener _ h l hend (hL.2.2 _ _)
      hnext).trans ?_
    refine (congrArg (Run.after _) (hl' fuel)).trans ?_
    rw [Run.after_after]
    rfl

/-- The walk of a level. From the first node of a level of a trie, with a listener that
always answers `true`, the loop makes the calls of the walk of the level in the iterations
that the walk counts. Then it goes on from the pop at the end of the level or, when a child
array without a node stopped the walk, from the end that the descent left the cursor at. -/
theorem traverseLoop_levelWalk (d : Dict) (listener : TraversingEventListener κ)
    (hL : listener.AlwaysTrue) :
    ∀ (t : Trie) (h : Helper), t ≠ Trie.done → represents d h t = true → ∀ l, ∃ l', ∀ fuel,
      traverseLoop (helperOps d) listener (fuel + (levelWalk d t h).iterations) false h l =
        (traverseLoop (helperOps d) listener fuel (levelWalk d t h).completed
          (if (levelWalk d t h).completed
            then popReadingStateFromStack (levelWalk d t h).helper
            else (levelWalk d t h).helper) l').after (levelWalk d t h).calls
  | Trie.done, _, hne, _, _ => absurd rfl hne
  | Trie.leaf pos next, h, _, hr, l => by
    simp only [represents, Bool.and_eq_true, Bool.not_eq_true', decide_eq_true_eq] at hr
    obtain ⟨⟨⟨hend, hpos⟩, hkids⟩, hnext⟩ := hr
    obtain ⟨l', hl'⟩ := traverseLoop_visit d listener hL next h hend hnext
      (fun hn => traverseLoop_levelWalk d listener hL next _ hn hnext) l
    refine ⟨l', fun fuel => ?_⟩
    have e : fuel + (levelWalk d (Trie.leaf pos next) h).iterations
        = (fuel + (levelWalk d next (readNextSiblingNode d h)).iterations + 1) + 1 := rfl
    rw [e]
    refine (traverseLoop_step_leaf (helperOps d) listener _ h l hend
      (by rw [← hpos] at hkids; exact hkids)).trans ?_
    rw [hl' fuel]
    subst hpos
    rfl
  | Trie.parent pos children next, h, _, hr, l => by
    have hflag := represents_flag d _ h hr
    simp only [represents, Bool.and_eq_true, Bool.not_eq_true', decide_eq_true_eq] at hr
    obtain ⟨⟨⟨⟨hend, hpos⟩, hkids⟩, hchildren⟩, hnext⟩ := hr
    have hkids1 : (helperOps d).hasChildren h = true := by rw [← hpos] at hkids; exact hkids
    by_cases hc : children = Trie.done
    · subst hc
      refine ⟨(listener.onDescend l).2, fun fuel => ?_⟩
      rw [levelWalk_parent_done]
      exact traverseLoop_step_descend (helperOps d) listener _ h l hend hkids1 (hL.2.1 l)
    · obtain ⟨l1, hl1⟩ := traverseLoop_levelWalk d listener hL children _ hc hchildren
        (listener.onDescend l).2
      cases hw : (levelWalk d children (readChildNode d (pushReadingStateToStack h))).completed
      · refine ⟨l1, fun fuel => ?_⟩
        rw [levelWalk_parent_stopped d pos children next h hc hw]
        dsimp only
        refine (traverseLoop_step_descend (helperOps d) listener _ h l hend hkids1
          (hL.2.1 l)).trans ?_
        refine (congrArg (Run.after _) (hl1 fuel)).trans ?_
        rw [Run.after_after, hw]
        rfl
      · obtain ⟨l2, hl2⟩ := traverseLoop_visit d listener hL next h hend hnext
          (fun hn => traverseLoop_levelWalk d listener hL next _ hn hnext) l1
        refine ⟨l2, fun fuel => ?_⟩
        rw [levelWalk_parent_completed d pos children next h hc hw]
        dsimp only
        have e : fuel + ((levelWalk d next (readNextSiblingNode d h)).iterations
            + (levelWalk d children (readChildNode d (pushReadingStateToStack h))).iterations
            + 2)
            = ((fuel + (levelWalk d next (readNextSiblingNode d h)).iterations + 1)
              + (levelWalk d children
                (readChildNode d (pushReadingStateToStack h))).iterations) + 1 := by
          omega
        rw [e]
        refine (traverseLoop_step_descend (helperOps d) listener _ h l hend hkids1
          (hL.2.1 l)).trans ?_
        refine (congrArg (Run.after _)
          (hl1 (fuel + (levelWalk d next (readNextSiblingNode d h)).iterations + 1))).trans ?_
        rw [hw, if_pos rfl, pop_levelWalk_children d children h hflag hchildren hw, hl2 fuel,
          Run.after_after, Run.after_after]
        subst hpos
        simp

/-- On a trie whose child arrays hold a node each the walk of a level comes to its end. -/
theorem levelWalk_of_childArraysNonEmpty (d : Dict) :
    ∀ (t : Trie) (h : Helper), t.childArraysNonEmpty = true →
      levelWalk d t h =
        { calls := walkCalls d t h, completed := true, helper := levelEnd d t h
          iterations := t.iterations }
  | Trie.done, _, _ => rfl
  | Trie.leaf pos next, h, hne => by
    have hn : next.childArraysNonEmpty = true := hne
    simp [levelWalk, levelWalk_of_childArraysNonEmpty d next _ hn, walkCalls, levelEnd,
      Trie.iterations]
  | Trie.parent pos children next, h, hne => by
    simp only [Trie.childArraysNonEmpty, Bool.and_eq_true, decide_eq_true_eq] at hne
    obtain ⟨⟨hc0, hc1⟩, hn⟩ := hne
    have e1 := levelWalk_of_childArraysNonEmpty d children
      (readChildNode d (pushReadingStateToStack h)) hc1
    have e2 := levelWalk_of_childArraysNonEmpty d next (readNextSiblingNode d h) hn
    rw [levelWalk_parent_completed d pos children next h hc0 (by rw [e1])]
    simp [e1, e2, walkCalls, levelEnd, Trie.iterations]

/-- The walk of a trie from the root. From the first node of a trie, with nothing on the
state stack and a listener that always answers `true`, the walk returns `true` as soon as its
fuel is above the iterations the walk counts; its calls are those of the walk of the root
level, between the descent from the root and the final `onAscend`. -/
theorem traverse_rootWalk (d : Dict) (listener : TraversingEventListener κ)
    (hL : listener.AlwaysTrue) (t : Trie) (h : Helper) (hr : represents d h t = true)
    (hs : h.mReadingStateStack = []) (l : κ) (fuel : Nat)
    (hfuel : (levelWalk d t h).iterations < fuel) :
    (traverseAllPtNodesInPostorderDepthFirstManner (helperOps d) listener fuel h l).ret
        = some true
      ∧ (traverseAllPtNodesInPostorderDepthFirstManner (helperOps d) listener fuel h l).calls
        = rootWalkCalls d t h
      ∧ (traverseAllPtNodesInPostorderDepthFirstManner (helperOps d) listener fuel h l).helper
        = (levelWalk d t h).helper := by
  obtain ⟨hend, hflag, hstack⟩ := levelWalk_spec d t h hr
  unfold traverseAllPtNodesInPostorderDepthFirstManner
  dsimp only
  rw [if_neg (by simp [hL.2.1 l])]
  by_cases ht : t = Trie.done
  · subst ht
    obtain ⟨n, rfl⟩ : ∃ n, fuel = n + 1 := ⟨fuel - 1, by omega⟩
    rw [traverseLoop_step_end (helperOps d) listener n false h _ hend]
    have hf : (helperOps d).isError h = false := hflag
    simp [Run.after, hL.1, hf, rootWalkCalls, levelWalk]
  · obtain ⟨l', hl'⟩ := traverseLoop_levelWalk d listener hL t h ht hr (listener.onDescend l).2
    obtain ⟨n, rfl⟩ : ∃ n, fuel = (n + 1) + (levelWalk d t h).iterations :=
      ⟨fuel - (levelWalk d t h).iterations - 1, by omega⟩
    have hpop : (if (levelWalk d t h).completed
        then popReadingStateFromStack (levelWalk d t h).helper
        else (levelWalk d t h).helper) = (levelWalk d t h).helper := by
      split
      · rename_i hw
        exact popReadingStateFromStack_nil _ ((hstack hw).trans hs)
      · rfl
    rw [hl' (n + 1), hpop, traverseLoop_step_end (helperOps d) listener n _ _ _ hend]
    have hf : (helperOps d).isError (levelWalk d t h).helper = false := hflag
    simp [Run.after, hL.1, hf, rootWalkCalls, ht]

/-- The walk of a trie whose child arrays hold a node each: its calls are those of the
postorder walk and it leaves the helper at the end of the root level. -/
theorem traverse_trie (d : Dict) (listener : TraversingEventListener κ)
    (hL : listener.AlwaysTrue) (t : Trie) (h : Helper) (hr : represents d h t = true)
    (hne : t.childArraysNonEmpty = true) (hs : h.mReadingStateStack = []) (l : κ) (fuel : Nat)
    (hfuel : t.iterations < fuel) :
    (traverseAllPtNodesInPostorderDepthFirstManner (helperOps d) listener fuel h l).ret
        = some true
      ∧ (traverseAllPtNodesInPostorderDepthFirstManner (helperOps d) listener fuel h l).calls
        = rootCalls d t h
      ∧ (traverseAllPtNodesInPostorderDepthFirstManner (helperOps d) listener fuel h l).helper
        = levelEnd d t h := by
  have e := levelWalk_of_childArraysNonEmpty d t h hne
  have h1 := traverse_rootWalk d listener hL t h hr hs l fuel (by rw [e]; exact hfuel)
  rw [e] at h1
  simp only [rootWalkCalls, e] at h1
  exact h1

/-! ## The order of the callbacks -/

theorem listenerAlwaysTrue_alwaysTrue : listenerAlwaysTrue.AlwaysTrue :=
  ⟨fun _ => rfl, fun _ => rfl, fun _ _ => rfl⟩

/-- C2, at its failing input. In the sample dictionary the helper at 70 stands at a trie of
the nodes 71 and 72, where the child array of node 71 has no entry and no forward link. The
walk returns `true` after three callbacks and has visited no node. -/
theorem traverse_returns_true_with_unvisited_nodes :
    represents sampleDict (sampleStart 70) sampleTrieEmptyChild = true
      ∧ sampleTrieEmptyChild.nodes = [71, 72]
      ∧ (traverseAllPtNodesInPostorderDepthFirstManner (helperOps sampleDict) listenerAlwaysTrue
          20 (sampleStart 70) ()).ret = some true
      ∧ (traverseAllPtNodesInPostorderDepthFirstManner (helperOps sampleDict) listenerAlwaysTrue
          20 (sampleStart 70) ()).calls.map Call.event
        = [Event.onDescend, Event.onDescend, Event.onAscend]
      ∧ visitedNodes (traverseAllPtNodesInPostorderDepthFirstManner (helperOps sampleDict)
          listenerAlwaysTrue 20 (sampleStart 70) ()).calls = [] := by
  decide

/-- What holds of C2: on a trie whose child arrays hold a node each, the walk returns `true`
and has passed every node of the trie to `onVisitingPtNode` as often as the node stands in
the trie, which is once. -/
theorem traverse_visits_every_node (d : Dict) (listener : TraversingEventListener κ)
    (hL : listener.AlwaysTrue) (t : Trie) (h : Helper) (hr : represents d h t = true)
    (hne : t.childArraysNonEmpty = true) (hs : h.mReadingStateStack = []) (l : κ) (fuel : Nat)
    (hfuel : t.iterations < fuel) :
    (traverseAllPtNodesInPostorderDepthFirstManner (helperOps d) listener fuel h l).ret
        = some true
      ∧ ∀ pos, (visitedNodes (traverseAllPtNodesInPostorderDepthFirstManner (helperOps d)
          listener fuel h l).calls).count pos = t.nodes.count pos := by
  obtain ⟨h1, h2, _⟩ := traverse_trie d listener hL t h hr hne hs l fuel hfuel
  refine ⟨h1, fun pos => ?_⟩
  rw [h2]
  exact visitedNodes_rootCalls d pos t h

/-- The walk of the sample dictionary from 0 visits each of the nodes 1, 2 and 11 once. -/
theorem traverse_visits_every_node_witness :
    represents sampleDict (sampleStart 0) sampleTrie = true
      ∧ sampleTrie.childArraysNonEmpty = true
      ∧ ∀ pos, (visitedNodes (traverseAllPtNodesInPostorderDepthFirstManner
          (helperOps sampleDict) listenerAlwaysTrue 20 (sampleStart 0) ()).calls).count pos
        = sampleTrie.nodes.count pos :=
  ⟨by decide, by decide,
    (traverse_visits_every_node sampleDict listenerAlwaysTrue listenerAlwaysTrue_alwaysTrue
      sampleTrie (sampleStart 0) (by decide) (by decide) (by decide) () 20 (by decide)).2⟩

/-! ## The wide dictionary -/

/-- C10, at its failing input. The walk of the sample dictionary from 70, where the child
array of node 71 has no entry and no forward link, runs to completion and returns `true`.
Its second `onDescend` pushed the reading state of node 71; the only `onAscend` is the final
one, which no pop follows, and the pushed state is still on the stack at the return. -/
theorem traverse_returns_true_with_state_on_stack :
    (sampleStart 70).mReadingStateStack = []
      ∧ (traverseAllPtNodesInPostorderDepthFirstManner (helperOps sampleDict) listenerAlwaysTrue
          20 (sampleStart 70) ()).ret = some true
      ∧ (traverseAllPtNodesInPostorderDepthFirstManner (helperOps sampleDict) listenerAlwaysTrue
          20 (sampleStart 70) ()).calls.map
            (fun c => (c.event, c.helper.mReadingStateStack.length))
        = [(Event.onDescend, 0), (Event.onDescend, 0), (Event.onAscend, 1)]
      ∧ (traverseAllPtNodesInPostorderDepthFirstManner (helperOps sampleDict) listenerAlwaysTrue
          20 (sampleStart 70) ()).helper.mReadingStateStack
        = [(sampleStart 70).mReadingState] := by
  decide

theorem descentsMatched_nil : DescentsMatched [] := by
  intro pre post c h
  simp at h

theorem descentsMatched_cons (c0 : Call Helper) (xs : List (Call Helper))
    (hxs : DescentsMatched xs)
    (h0 : c0.event = Event.onDescend →
      ∃ (mid : List (Call Helper)) (a v : Call Helper) (rest : List (Call Helper)),
        xs = mid ++ a :: v :: rest ∧ a.event = Event.onAscend
          ∧ a.helper.mReadingStateStack
            = c0.helper.mReadingState :: c0.helper.mReadingStateStack
          ∧ v.helper = c0.helper ∧ AtDepth (c0.helper.mReadingStateStack.length + 1) mid) :
    DescentsMatched (c0 :: xs) := by
  intro pre post c hcalls hev
  rcases List.cons_eq_append_iff.mp hcalls with ⟨rfl, h2⟩ | ⟨pre1, rfl, h2⟩
  · simp only [List.nil_append, List.cons.injEq] at h2
    obtain ⟨rfl, rfl⟩ := h2
    exact h0 hev
  · exact hxs pre1 post c h2 hev

theorem descentsMatched_append {cs1 cs2 : List (Call Helper)} (h1 : DescentsMatched cs1)
    (h2 : DescentsMatched cs2) : DescentsMatched (cs1 ++ cs2) := by
  intro pre post c hcalls hev
  rcases List.append_eq_append_iff.mp hcalls with ⟨a1, rfl, ha⟩ | ⟨c1, hc, hc2⟩
  · exact h2 a1 post c ha hev
  · cases c1 with
    | nil =>
      simp only [List.append_nil, List.nil_append] at hc hc2
      exact h2 [] post c (by simpa using hc2.symm) hev
    | cons x c1 =>
      simp only [List.cons_append, List.cons.injEq] at hc2
      obtain ⟨rfl, rfl⟩ := hc2
      obtain ⟨mid, a, v, rest, e1, e2, e3, e4, e5⟩ := h1 pre c1 c hc hev
      exact ⟨mid, a, v, rest ++ cs2, by rw [e1]; simp, e2, e3, e4, e5⟩

/-- The calls of the postorder walk of a level end with the `onAscend` that closes the
level; the calls before it are made at the depth of the level. -/
theorem walkCalls_shape (d : Dict) :
    ∀ (t : Trie) (h : Helper), represents d h t = true →
      ∃ init, walkCalls d t h = init ++ [⟨Event.onAscend, levelEnd d t h, true⟩]
        ∧ AtDepth h.mReadingStateStack.length init
  | Trie.done, h, _ => ⟨[], rfl, fun m hm => by simp at hm⟩
  | Trie.leaf pos next, h, hr => by
    simp only [represents, Bool.and_eq_true] at hr
    obtain ⟨init, e1, e2⟩ := walkCalls_shape d next _ hr.2
    refine ⟨⟨Event.onVisitingPtNode pos, h, true⟩ :: init, by simp [walkCalls, levelEnd, e1],
      fun m hm => ?_⟩
    rcases List.mem_cons.mp hm with rfl | hm
    · exact ⟨le_rfl, fun hh => by cases hh⟩
    · have := e2 m hm
      rw [readNextSiblingNode_stack] at this
      exact this
  | Trie.parent pos children next, h, hr => by
    simp only [represents, Bool.and_eq_true] at hr
    obtain ⟨initn, e1, e2⟩ := walkCalls_shape d next _ hr.2
    obtain ⟨initc, e3, e4⟩ := walkCalls_shape d children _ hr.1.2
    have hstack : (readChildNode d (pushReadingStateToStack h)).mReadingStateStack.length
        = h.mReadingStateStack.length + 1 := by
      rw [(readChildNode_landed d _).stack]
      rfl
    have hend := (levelEnd_spec d children _ hr.1.2).2.2
    refine ⟨⟨Event.onDescend, h, true⟩
      :: (initc ++ ⟨Event.onAscend,
          levelEnd d children (readChildNode d (pushReadingStateToStack h)), true⟩
        :: ⟨Event.onVisitingPtNode pos, h, true⟩ :: initn),
      by simp [walkCalls, levelEnd, e1, e3], fun m hm => ?_⟩
    simp only [List.mem_cons, List.mem_append] at hm
    rcases hm with rfl | hm | rfl | rfl | hm
    · exact ⟨le_rfl, fun hh => by cases hh⟩
    · have := e4 m hm
      rw [hstack] at this
      exact ⟨by omega, fun hh => by have := this.2 hh; omega⟩
    · show h.mReadingStateStack.length ≤ (levelEnd d children _).mReadingStateStack.length
        ∧ (_ → h.mReadingStateStack.length < (levelEnd d children _).mReadingStateStack.length)
      rw [hend, hstack]
      exact ⟨by omega, fun _ => by omega⟩
    · exact ⟨le_rfl, fun hh => by cases hh⟩
    · have := e2 m hm
      rw [readNextSiblingNode_stack] at this
      exact this

/-- In the postorder walk of a level every `onDescend` is matched. -/
theorem walkCalls_descentsMatched (d : Dict) :
    ∀ (t : Trie) (h : Helper), represents d h t = true →
      DescentsMatched (walkCalls d t h)
  | Trie.done, h, _ =>
    descentsMatched_cons _ _ descentsMatched_nil (fun hh => by cases hh)
  | Trie.leaf pos next, h, hr => by
    simp only [represents, Bool.and_eq_true] at hr
    exact descentsMatched_cons _ _ (walkCalls_descentsMatched d next _ hr.2)
      (fun hh => by cases hh)
  | Trie.parent pos children next, h, hr => by
    simp only [represents, Bool.and_eq_true] at hr
    have ihn := walkCalls_descentsMatched d next _ hr.2
    have ihc := walkCalls_descentsMatched d children _ hr.1.2
    obtain ⟨initc, e3, e4⟩ := walkCalls_shape d children _ hr.1.2
    have hstack : (readChildNode d (pushReadingStateToStack h)).mReadingStateStack
        = h.mReadingState :: h.mReadingStateStack := (readChildNode_landed d _).stack
    have hend := (levelEnd_spec d children _ hr.1.2).2.2
    refine descentsMatched_cons _ _
      (descentsMatched_append ihc (descentsMatched_cons _ _ ihn (fun hh => by cases hh)))
      (fun _ => ⟨initc, ⟨Event.onAscend,
        levelEnd d children (readChildNode d (pushReadingStateToStack h)), true⟩,
        ⟨Event.onVisitingPtNode pos, h, true⟩, walkCalls d next (readNextSiblingNode d h),
        by rw [e3]; simp, rfl, hend.trans hstack, rfl, ?_⟩)
    have hlen : (readChildNode d (pushReadingStateToStack h)).mReadingStateStack.length
        = h.mReadingStateStack.length + 1 := by
      rw [hstack]
      rfl
    rw [hlen] at e4
    exact e4

/-- What holds of C10: on a trie whose child arrays hold a node each, walked from an empty
state stack with a listener that always answers `true`, the walk returns `true` with the
state stack empty, and every `onDescend` of the loop (every call `c` but the first that is an
`onDescend`) is matched: the calls after it are calls on a stack that holds the state it
pushed, the `onAscend` that closes the level of the children, on the stack with that state
on top, and then a call whose helper is the helper of the descent, restored by the pop. -/
theorem traverse_stack_symmetric (d : Dict) (listener : TraversingEventListener κ)
    (hL : listener.AlwaysTrue) (t : Trie) (h : Helper) (hr : represents d h t = true)
    (hne : t.childArraysNonEmpty = true) (hs : h.mReadingStateStack = []) (l : κ) (fuel : Nat)
    (hfuel : t.iterations < fuel) :
    (traverseAllPtNodesInPostorderDepthFirstManner (helperOps d) listener fuel h l).ret
        = some true
      ∧ (traverseAllPtNodesInPostorderDepthFirstManner (helperOps d) listener fuel h
          l).helper.mReadingStateStack = []
      ∧ ∀ (pre post : List (Call Helper)) (c : Call Helper),
        (traverseAllPtNodesInPostorderDepthFirstManner (helperOps d) listener fuel h l).calls
          = pre ++ c :: post →
        pre ≠ [] → c.event = Event.onDescend →
        ∃ (mid : List (Call Helper)) (a v : Call Helper) (rest : List (Call Helper)),
          post = mid ++ a :: v :: rest ∧ a.event = Event.onAscend
            ∧ a.helper.mReadingStateStack
              = c.helper.mReadingState :: c.helper.mReadingStateStack
            ∧ v.helper = c.helper ∧ AtDepth (c.helper.mReadingStateStack.length + 1) mid := by
  obtain ⟨h1, h2, h3⟩ := traverse_trie d listener hL t h hr hne hs l fuel hfuel
  refine ⟨h1, ?_, fun pre post c hcalls hpre hev => ?_⟩
  · rw [h3, (levelEnd_spec d t h hr).2.2, hs]
  · rw [h2] at hcalls
    unfold rootCalls at hcalls
    rcases List.cons_eq_append_iff.mp hcalls with ⟨rfl, _⟩ | ⟨pre1, rfl, h4⟩
    · exact absurd rfl hpre
    · have hm : DescentsMatched (walkCalls d t h
          ++ (if t = Trie.done then []
            else [(⟨Event.onAscend, levelEnd d t h, true⟩ : Call Helper)])) := by
        refine descentsMatched_append (walkCalls_descentsMatched d t h hr) ?_
        split
        · exact descentsMatched_nil
        · exact descentsMatched_cons _ _ descentsMatched_nil (fun hh => by cases hh)
      exact hm pre1 post c h4 hev

/-- In the walk of the sample dictionary from 0 the descent to the children of node 1 is
matched by the `onAscend` after the visit of node 11, and the stack is empty at the end. -/
theorem traverse_stack_symmetric_witness :
    represents sampleDict (sampleStart 0) sampleTrie = true
      ∧ sampleTrie.childArraysNonEmpty = true
      ∧ (sampleStart 0).mReadingStateStack = []
      ∧ (traverseAllPtNodesInPostorderDepthFirstManner (helperOps sampleDict) listenerAlwaysTrue
          20 (sampleStart 0) ()).helper.mReadingStateStack = [] :=
  ⟨by decide, by decide, by decide,
    (traverse_stack_symmetric sampleDict listenerAlwaysTrue listenerAlwaysTrue_alwaysTrue
      sampleTrie (sampleStart 0) (by decide) (by decide) (by decide) () 20 (by decide)).2.1⟩

/-! ## Empty arrays and forward links -/

/-- A result of `nextNodeArray` off the sentinel holds the node count that the header at the
recorded array head declares. -/
theorem nextNodeArray_head_aux (d : Dict) :
    ∀ (n : Nat) (h : Helper), headerReadBudget h.mReadingState ≤ n →
      (nextNodeArray d h).mReadingState.mPos ≠ d.NOT_A_DICT_POS →
      (nextNodeArray d h).mReadingState.mNodeCount
        = (d.getPtNodeArraySizeAndAdvancePosition
          (d.isInAdditionalBuffer (nextNodeArray d h).mReadingState.mPosOfLastPtNodeArrayHead)
          (toBufferPos d
            (d.isInAdditionalBuffer (nextNodeArray d h).mReadingState.mPosOfLastPtNodeArrayHead)
            (nextNodeArray d h).mReadingState.mPosOfLastPtNodeArrayHead)).1
  | 0, h, hn => absurd (headerReadBudget_pos h.mReadingState) (by omega)
  | n + 1, h, hn => by
    rw [nextNodeArray_eq]
    split
    · intro hp
      exact absurd rfl hp
    · rename_i hinv
      have hok := isInvalidPtNodeArray_eq_false (Bool.eq_false_iff.mpr hinv)
      split
      · rw [followForwardLink_eq]
        split
        · exact nextNodeArray_head_aux d n _
            (headerReadBudget_succ_le h.mReadingState _ rfl hok.2.2 hn)
        · intro hp
          exact absurd rfl hp
      · intro _
        rfl

theorem nextNodeArray_head (d : Dict) (h : Helper)
    (hp : (nextNodeArray d h).mReadingState.mPos ≠ d.NOT_A_DICT_POS) :
    (nextNodeArray d h).mReadingState.mNodeCount
      = (d.getPtNodeArraySizeAndAdvancePosition
        (d.isInAdditionalBuffer (nextNodeArray d h).mReadingState.mPosOfLastPtNodeArrayHead)
        (toBufferPos d
          (d.isInAdditionalBuffer (nextNodeArray d h).mReadingState.mPosOfLastPtNodeArrayHead)
          (nextNodeArray d h).mReadingState.mPosOfLastPtNodeArrayHead)).1 :=
  nextNodeArray_head_aux d _ h le_rfl hp

/-- C11. When the header that `nextNodeArray` reads declares no node and neither ceiling is
exceeded (the total node count is at most 100000 and the node-array counter, counted up by
one, is at most 100000), the result of `nextNodeArray` is the result of `followForwardLink`
on the state after the header read: the array head recorded, the position just past the
header and both counters counted up. A result off the sentinel then stands on a node of
another array: at least one node remains and the recorded array head is not the head of the
empty array. -/
theorem nextNodeArray_empty_array (d : Dict) (h : Helper)
    (hzero : (d.getPtNodeArraySizeAndAdvancePosition
      (d.isInAdditionalBuffer h.mReadingState.mPos)
      (toBufferPos d (d.isInAdditionalBuffer h.mReadingState.mPos) h.mReadingState.mPos)).1 = 0)
    (htotal : h.mReadingState.mTotalNodeCount ≤ 100000)
    (harrays : h.mReadingState.mNodeArrayCount + 1 ≤ 100000) :
    nextNodeArray d h
        = followForwardLink d { h with mReadingState := readPtNodeArrayHeader d h.mReadingState }
      ∧ ((nextNodeArray d h).mReadingState.mPos ≠ d.NOT_A_DICT_POS →
        1 ≤ (nextNodeArray d h).mReadingState.mNodeCount
          ∧ (nextNodeArray d h).mReadingState.mPosOfLastPtNodeArrayHead
            ≠ h.mReadingState.mPos) := by
  have hcount : (readPtNodeArrayHeader d h.mReadingState).mNodeCount = 0 := hzero
  have hinv : isInvalidPtNodeArray (readPtNodeArrayHeader d h.mReadingState) = false := by
    simp only [isInvalidPtNodeArray, MAX_CHILD_COUNT_TO_AVOID_INFINITE_LOOP,
      MAX_NODE_ARRAY_COUNT_TO_AVOID_INFINITE_LOOP, Bool.or_eq_false_iff,
      decide_eq_false_iff_not, not_lt, gt_iff_lt]
    refine ⟨⟨by rw [hcount], ?_⟩, ?_⟩
    · rw [readPtNodeArrayHeader_mTotalNodeCount, hcount]
      omega
    · rw [readPtNodeArrayHeader_mNodeArrayCount]
      exact harrays
  have heq : nextNodeArray d h
      = followForwardLink d
        { h with mReadingState := readPtNodeArrayHeader d h.mReadingState } := by
    rw [nextNodeArray_eq, hinv, if_neg (by simp), if_pos hcount]
  refine ⟨heq, fun hp => ?_⟩
  have hnode := ((nextNodeArray_landed d h).node hp).2.2.2.1
  refine ⟨hnode, fun hhead => ?_⟩
  have hc := nextNodeArray_head d h hp
  rw [hhead, hzero] at hc
  omega

/-- The array at 39 of the two-buffer dictionary is empty and is followed by the forward link
at 40, which leads to the array at 105 in the additional buffer: the cursor is left on the
first of its three nodes. -/
theorem nextNodeArray_empty_array_witness :
    nextNodeArray segmentDict (sampleHelper 39)
        = followForwardLink segmentDict
          { sampleHelper 39 with
            mReadingState := readPtNodeArrayHeader segmentDict (sampleHelper 39).mReadingState }
      ∧ (nextNodeArray segmentDict (sampleHelper 39)).mReadingState.mPos = 107
      ∧ (nextNodeArray segmentDict (sampleHelper 39)).mReadingState.mNodeCount = 3
      ∧ (nextNodeArray segmentDict (sampleHelper 39)).mReadingState.mPosOfLastPtNodeArrayHead
        = 105 :=
  ⟨(nextNodeArray_empty_array segmentDict (sampleHelper 39) (by decide) (by decide)
    (by decide)).1, by decide, by decide, by decide⟩

/-- C12. When the forward-link field at the position is not a valid forward link,
`followForwardLink` leaves the helper as it was but for the position, which is
`NOT_A_DICT_POS`, and the recorded position of the forward-link field: the error flag, the
node count of the array, the total node count, the node-array counter and the state stack
are unchanged. -/
theorem followForwardLink_invalid_link (d : Dict) (h : Helper)
    (hlink : d.isValidForwardLinkPosition
      (d.getForwardLinkPosition (d.isInAdditionalBuffer h.mReadingState.mPos)
        (toBufferPos d (d.isInAdditionalBuffer h.mReadingState.mPos) h.mReadingState.mPos))
      = false) :
    followForwardLink d h
        = { h with mReadingState := { h.mReadingState with
            mPosOfLastForwardLinkField := h.mReadingState.mPos
            mPos := d.NOT_A_DICT_POS } }
      ∧ (followForwardLink d h).mReadingState.mPos = d.NOT_A_DICT_POS
      ∧ (followForwardLink d h).mIsError = h.mIsError
      ∧ (followForwardLink d h).mReadingState.mTotalNodeCount = h.mReadingState.mTotalNodeCount
      ∧ (followForwardLink d h).mReadingState.mNodeArrayCount = h.mReadingState.mNodeArrayCount
      ∧ (followForwardLink d h).mReadingState.mNodeCount = h.mReadingState.mNodeCount
      ∧ (followForwardLink d h).mReadingStateStack = h.mReadingStateStack := by
  have hl : d.isValidForwardLinkPosition (readForwardLinkField d h.mReadingState) = false :=
    hlink
  have heq : followForwardLink d h
      = { h with mReadingState := { h.mReadingState with
          mPosOfLastForwardLinkField := h.mReadingState.mPos
          mPos := d.NOT_A_DICT_POS } } := by
    rw [followForwardLink_eq, hl, if_neg (by simp)]
  rw [heq]
  exact ⟨rfl, rfl, rfl, rfl, rfl, rfl, rfl⟩

/-- The field at 21 of the two-buffer dictionary holds no link: the cursor is moved to the
sentinel and the flag stays unset. -/
theorem followForwardLink_invalid_link_witness :
    (followForwardLink segmentDict (sampleHelper 21)).mReadingState.mPos
        = segmentDict.NOT_A_DICT_POS
      ∧ (followForwardLink segmentDict (sampleHelper 21)).mIsError = false :=
  ⟨(followForwardLink_invalid_link segmentDict (sampleHelper 21) (by decide)).2.1,
    (followForwardLink_invalid_link segmentDict (sampleHelper 21) (by decide)).2.2.1⟩

/-- C13. When the forward-link field at the position `p` of the helper holds a valid forward
link `v`, read in the buffer that `p` lies in at the offset of `p` in that buffer, the result
of `followForwardLink` is the result of `nextNodeArray` from the logical position `p + v`
with `p` recorded as the position of the last forward-link field. The header at `p + v` is
read in the buffer that `p + v` lies in, whichever buffer `p` lies in. -/
theorem followForwardLink_valid_link (d : Dict) (h : Helper)
    (hlink : d.isValidForwardLinkPosition
      (d.getForwardLinkPosition (d.isInAdditionalBuffer h.mReadingState.mPos)
        (if d.isInAdditionalBuffer h.mReadingState.mPos
          then h.mReadingState.mPos - d.getOriginalBufferSize else h.mReadingState.mPos))
      = true) :
    let p := h.mReadingState.mPos
    let v := d.getForwardLinkPosition (d.isInAdditionalBuffer p)
      (if d.isInAdditionalBuffer p then p - d.getOriginalBufferSize else p)
    let target : Helper := { h with mReadingState := { h.mReadingState with
      mPosOfLastForwardLinkField := p
      mPos := p + v } }
    followForwardLink d h = nextNodeArray d target
      ∧ (readPtNodeArrayHeader d target.mReadingState).mNodeCount
        = (d.getPtNodeArraySizeAndAdvancePosition (d.isInAdditionalBuffer (p + v))
          (if d.isInAdditionalBuffer (p + v) then p + v - d.getOriginalBufferSize
            else p + v)).1
      ∧ (readPtNodeArrayHeader d target.mReadingState).mPosOfLastPtNodeArrayHead = p + v
      ∧ (readPtNodeArrayHeader d target.mReadingState).mPosOfLastForwardLinkField = p := by
  intro p v target
  have hl : d.isValidForwardLinkPosition (readForwardLinkField d h.mReadingState) = true :=
    hlink
  refine ⟨?_, rfl, rfl, rfl⟩
  rw [followForwardLink_eq, hl, if_pos rfl]
  rfl

/-- The field at 130 of the two-buffer dictionary, in the additional buffer, holds the link
-110 to the array at 20 in the original buffer, whose header is read there: the cursor is
left at 21 on the first of two nodes. -/
theorem followForwardLink_valid_link_witness :
    segmentDict.isInAdditionalBuffer (sampleHelper 130).mReadingState.mPos = true
      ∧ segmentDict.isInAdditionalBuffer 20 = false
      ∧ followForwardLink segmentDict (sampleHelper 130)
        = nextNodeArray segmentDict
          { sampleHelper 130 with mReadingState := { (sampleHelper 130).mReadingState with
            mPosOfLastForwardLinkField := 130
            mPos := 20 } }
      ∧ (followForwardLink segmentDict (sampleHelper 130)).mReadingState.mPos = 21
      ∧ (followForwardLink segmentDict (sampleHelper 130)).mReadingState.mNodeCount = 2 :=
  ⟨by decide, by decide,
    (followForwardLink_valid_link segmentDict (sampleHelper 130) (by decide)).1,
    by decide, by decide⟩

/-! ## The two buffers -/

/-- C14. For a position `p` that the buffer places in the additional buffer (the positions
from `S` on, where `S` is the size of the original buffer), the header read of
`nextNodeArray` (lines 76-89) holds the node count that the decoder finds in the additional
buffer at the offset `p - S`, stores the position that the decoder advanced to with `S`
added, which is `p` plus the length of the header, and records `p` as the array head;
`nextNodeArray` returns this state when the header is accepted with a node. The forward-link
field is read at the offset `p - S` as well. For a position in the original buffer the
decoders read at `p` itself and the position that the decoder advanced to is stored as it
is. -/
theorem readPtNodeArrayHeader_segment (d : Dict) (h : Helper) :
    let p := h.mReadingState.mPos
    let S := d.getOriginalBufferSize
    (d.isInAdditionalBuffer p = true →
      (readPtNodeArrayHeader d h.mReadingState).mNodeCount
          = (d.getPtNodeArraySizeAndAdvancePosition true (p - S)).1
        ∧ (readPtNodeArrayHeader d h.mReadingState).mPos
          = (d.getPtNodeArraySizeAndAdvancePosition true (p - S)).2 + S
        ∧ (readPtNodeArrayHeader d h.mReadingState).mPos
          = p + ((d.getPtNodeArraySizeAndAdvancePosition true (p - S)).2 - (p - S))
        ∧ (readPtNodeArrayHeader d h.mReadingState).mPosOfLastPtNodeArrayHead = p
        ∧ readForwardLinkField d h.mReadingState = d.getForwardLinkPosition true (p - S))
      ∧ (d.isInAdditionalBuffer p = false →
        (readPtNodeArrayHeader d h.mReadingState).mNodeCount
            = (d.getPtNodeArraySizeAndAdvancePosition false p).1
          ∧ (readPtNodeArrayHeader d h.mReadingState).mPos
            = (d.getPtNodeArraySizeAndAdvancePosition false p).2
          ∧ (readPtNodeArrayHeader d h.mReadingState).mPosOfLastPtNodeArrayHead = p
          ∧ readForwardLinkField d h.mReadingState = d.getForwardLinkPosition false p)
      ∧ (isInvalidPtNodeArray (readPtNodeArrayHeader d h.mReadingState) = false →
        (readPtNodeArrayHeader d h.mReadingState).mNodeCount ≠ 0 →
        nextNodeArray d h = { h with mReadingState := readPtNodeArrayHeader d h.mReadingState })
      := by
  intro p S
  refine ⟨fun hb => ?_, fun hb => ?_, fun hinv hne => ?_⟩
  · have e1 : (readPtNodeArrayHeader d h.mReadingState).mNodeCount
        = (d.getPtNodeArraySizeAndAdvancePosition true (p - S)).1 := by
      simp only [readPtNodeArrayHeader, toBufferPos, hb, if_true, p, S]
    have e2 : (readPtNodeArrayHeader d h.mReadingState).mPos
        = (d.getPtNodeArraySizeAndAdvancePosition true (p - S)).2 + S := by
      simp only [readPtNodeArrayHeader, toBufferPos, ofBufferPos, hb, if_true, p, S]
    have e3 : readForwardLinkField d h.mReadingState = d.getForwardLinkPosition true (p - S) := by
      simp only [readForwardLinkField, toBufferPos, hb, if_true, p, S]
    refine ⟨e1, e2, ?_, rfl, e3⟩
    rw [e2]
    omega
  · have e1 : (readPtNodeArrayHeader d h.mReadingState).mNodeCount
        = (d.getPtNodeArraySizeAndAdvancePosition false p).1 := by
      simp [readPtNodeArrayHeader, toBufferPos, hb, p]
    have e2 : (readPtNodeArrayHeader d h.mReadingState).mPos
        = (d.getPtNodeArraySizeAndAdvancePosition false p).2 := by
      simp [readPtNodeArrayHeader, toBufferPos, ofBufferPos, hb, p]
    have e3 : readForwardLinkField d h.mReadingState = d.getForwardLinkPosition false p := by
      simp [readForwardLinkField, toBufferPos, hb, p]
    exact ⟨e1, e2, rfl, e3⟩
  · rw [nextNodeArray_eq, hinv, if_neg (by simp), if_neg hne]

/-- The array at the logical position 105 of the two-buffer dictionary is read in the
additional buffer at the offset 5: three nodes and a header of two units, so the cursor is
left at 107 with 105 recorded as the array head. -/
theorem readPtNodeArrayHeader_segment_witness :
    segmentDict.isInAdditionalBuffer (sampleHelper 105).mReadingState.mPos = true
      ∧ (segmentDict.getPtNodeArraySizeAndAdvancePosition true 5) = (3, 7)
      ∧ (readPtNodeArrayHeader segmentDict (sampleHelper 105).mReadingState).mNodeCount = 3
      ∧ (readPtNodeArrayHeader segmentDict (sampleHelper 105).mReadingState).mPos = 107
      ∧ (readPtNodeArrayHeader segmentDict
          (sampleHelper 105).mReadingState).mPosOfLastPtNodeArrayHead = 105
      ∧ nextNodeArray segmentDict (sampleHelper 105)
        = { sampleHelper 105 with
            mReadingState := readPtNodeArrayHeader segmentDict (sampleHelper 105).mReadingState } :=
  ⟨by decide, by decide,
    ((readPtNodeArrayHeader_segment segmentDict (sampleHelper 105)).1 (by decide)).1,
    ((readPtNodeArrayHeader_segment segmentDict (sampleHelper 105)).1 (by decide)).2.1,
    ((readPtNodeArrayHeader_segment segmentDict (sampleHelper 105)).1 (by decide)).2.2.2.1,
    (readPtNodeArrayHeader_segment segmentDict (sampleHelper 105)).2.2 (by decide) (by decide)⟩

/-! ## The number of header reads -/

/-- After a header read that was accepted, the budget of header reads is exactly one less. -/
theorem headerReadBudget_succ_eq (s t : ReadingState)
    (h1 : t.mNodeArrayCount = s.mNodeArrayCount + 1) (h2 : t.mNodeArrayCount ≤ 100000) :
    headerReadBudget s = headerReadBudget t + 1 := by
  simp only [headerReadBudget, MAX_NODE_ARRAY_COUNT_TO_AVOID_INFINITE_LOOP]
  have h3 : max 1 (100000 + 1 - s.mNodeArrayCount).toNat = (100000 + 1 - s.mNodeArrayCount).toNat :=
    max_eq_right (by omega)
  have h4 : max 1 (100000 + 1 - t.mNodeArrayCount).toNat = (100000 + 1 - t.mNodeArrayCount).toNat :=
    max_eq_right (by omega)
  rw [h3, h4]
  omega

theorem headerReadBudget_cast (s : ReadingState) :
    (headerReadBudget s : Int) = max 1 (100001 - s.mNodeArrayCount) := by
  simp only [headerReadBudget, MAX_NODE_ARRAY_COUNT_TO_AVOID_INFINITE_LOOP]
  rcases le_total (100001 - s.mNodeArrayCount) 1 with h | h
  · rw [max_eq_left h, max_eq_left (by omega)]
    rfl
  · rw [max_eq_right h, max_eq_right (by omega)]
    omega

theorem nextNodeArrayCounted_spec (d : Dict) :
    ∀ (fuel : Nat) (h : Helper), headerReadBudget h.mReadingState ≤ fuel →
      ∃ n : Nat, nextNodeArrayCounted d fuel h = some (nextNodeArray d h, n)
        ∧ 1 ≤ n ∧ n ≤ headerReadBudget h.mReadingState
  | 0, h, hn => absurd (headerReadBudget_pos h.mReadingState) (by omega)
  | fuel + 1, h, hn => by
    have hpos := headerReadBudget_pos h.mReadingState
    rw [nextNodeArray_eq]
    simp only [nextNodeArrayCounted]
    split
    · exact ⟨1, rfl, le_rfl, hpos⟩
    · rename_i hinv
      have hok := isInvalidPtNodeArray_eq_false (Bool.eq_false_iff.mpr hinv)
      split
      · rw [followForwardLink_eq]
        unfold followForwardLinkCountedWith
        dsimp only
        split
        · have hb := headerReadBudget_succ_eq h.mReadingState
            (readPtNodeArrayHeader d h.mReadingState) rfl hok.2.2
          obtain ⟨n, h1, h2, h3⟩ := nextNodeArrayCounted_spec d fuel
            { h with mReadingState := { readPtNodeArrayHeader d h.mReadingState with
              mPosOfLastForwardLinkField := (readPtNodeArrayHeader d h.mReadingState).mPos
              mPos := (readPtNodeArrayHeader d h.mReadingState).mPos
                + readForwardLinkField d (readPtNodeArrayHeader d h.mReadingState) } }
            (headerReadBudget_succ_le h.mReadingState _ rfl hok.2.2 hn)
          refine ⟨n + 1, ?_, by omega, ?_⟩
          · rw [h1]
            rfl
          · have h4 : headerReadBudget (readPtNodeArrayHeader d h.mReadingState) + 1
                = headerReadBudget h.mReadingState := hb.symm
            exact le_trans (Nat.succ_le_succ h3) (le_of_eq h4)
        · exact ⟨1, rfl, le_rfl, hpos⟩
      · exact ⟨1, rfl, le_rfl, hpos⟩

/-- C16. For every dictionary and every state of the helper, `nextNodeArray` returns: the
recursion through `followForwardLink`, allowed as many header reads as
`max 1 (100001 - c)` for the node-array counter `c` of the state, or more, comes to the result
of `nextNodeArray` after `n` header reads, where `n` is at least 1 and at most
`max 1 (100001 - c)`. A call of `followForwardLink` comes to its result after at most as
many header reads. -/
theorem nextNodeArray_terminates (d : Dict) (h : Helper) (extra : Nat) :
    (∃ n : Nat,
      nextNodeArrayCounted d (headerReadBudget h.mReadingState + extra) h
          = some (nextNodeArray d h, n)
        ∧ 1 ≤ n ∧ (n : Int) ≤ max 1 (100001 - h.mReadingState.mNodeArrayCount))
      ∧ ∃ m : Nat,
        followForwardLinkCounted d (headerReadBudget h.mReadingState + extra) h
            = some (followForwardLink d h, m)
          ∧ (m : Int) ≤ max 1 (100001 - h.mReadingState.mNodeArrayCount) := by
  constructor
  · obtain ⟨n, h1, h2, h3⟩ := nextNodeArrayCounted_spec d
      (headerReadBudget h.mReadingState + extra) h (Nat.le_add_right _ _)
    refine ⟨n, h1, h2, ?_⟩
    rw [← headerReadBudget_cast]
    exact Int.ofNat_le.mpr h3
  · rw [followForwardLink_eq]
    unfold followForwardLinkCounted followForwardLinkCountedWith
    dsimp only
    split
    · obtain ⟨n, h1, _, h3⟩ := nextNodeArrayCounted_spec d
        (headerReadBudget h.mReadingState + extra)
        { h with mReadingState := { h.mReadingState with
          mPosOfLastForwardLinkField := h.mReadingState.mPos
          mPos := h.mReadingState.mPos + readForwardLinkField d h.mReadingState } }
        (Nat.le_add_right _ _)
      refine ⟨n, h1, ?_⟩
      rw [← headerReadBudget_cast]
      exact Int.ofNat_le.mpr h3
    · refine ⟨0, rfl, ?_⟩
      exact le_trans (by decide) (le_max_left _ _)

theorem nextNodeArrayCounted_cycleDict :
    ∀ (k extra : Nat) (h : Helper), h.mReadingState.mNodeArrayCount = 100000 - (k : Int) →
      h.mReadingState.mTotalNodeCount ≤ 100000 →
      ∃ r : Helper, nextNodeArrayCounted cycleDict (k + 1 + extra) h = some (r, k + 1)
        ∧ r.mIsError = true ∧ r.mReadingState.mPos = cycleDict.NOT_A_DICT_POS
  | 0, extra, h, hc, ht => by
    have hinv : isInvalidPtNodeArray (readPtNodeArrayHeader cycleDict h.mReadingState)
        = true := by
      simp only [isInvalidPtNodeArray, readPtNodeArrayHeader, Bool.or_eq_true,
        decide_eq_true_eq, MAX_NODE_ARRAY_COUNT_TO_AVOID_INFINITE_LOOP]
      right
      rw [hc]
      decide
    rw [show 0 + 1 + extra = extra + 1 by omega]
    simp only [nextNodeArrayCounted, hinv, if_true]
    exact ⟨_, rfl, rfl, rfl⟩
  | k + 1, extra, h, hc, ht => by
    have hinv : isInvalidPtNodeArray (readPtNodeArrayHeader cycleDict h.mReadingState)
        = false := by
      simp only [isInvalidPtNodeArray, readPtNodeArrayHeader, Bool.or_eq_false_iff,
        decide_eq_false_iff_not, MAX_NODE_ARRAY_COUNT_TO_AVOID_INFINITE_LOOP,
        MAX_CHILD_COUNT_TO_AVOID_INFINITE_LOOP, cycleDict, toBufferPos, ofBufferPos]
      refine ⟨⟨by decide, by omega⟩, ?_⟩
      rw [hc]
      push_cast
      omega
    obtain ⟨r, h1, h2, h3⟩ := nextNodeArrayCounted_cycleDict k extra
      { h with mReadingState := { readPtNodeArrayHeader cycleDict h.mReadingState with
        mPosOfLastForwardLinkField := (readPtNodeArrayHeader cycleDict h.mReadingState).mPos
        mPos := (readPtNodeArrayHeader cycleDict h.mReadingState).mPos
          + readForwardLinkField cycleDict (readPtNodeArrayHeader cycleDict h.mReadingState) } }
      (by
        show h.mReadingState.mNodeArrayCount + 1 = 100000 - (k : Int)
        rw [hc]
        push_cast
        omega)
      (by
        show h.mReadingState.mTotalNodeCount + 0 ≤ 100000
        omega)
    rw [show k + 1 + 1 + extra = (k + 1 + extra) + 1 by omega]
    refine ⟨r, ?_, h2, h3⟩
    have hz : (readPtNodeArrayHeader cycleDict h.mReadingState).mNodeCount = 0 := rfl
    have hv : cycleDict.isValidForwardLinkPosition
        (readForwardLinkField cycleDict (readPtNodeArrayHeader cycleDict h.mReadingState))
          = true := rfl
    simp only [nextNodeArrayCounted, hinv]
    rw [if_neg (by simp), if_pos hz]
    unfold followForwardLinkCountedWith
    dsimp only
    rw [if_pos hv, h1]
    rfl

/-- In the cycle of empty arrays a call of `nextNodeArray` with the counters at zero makes
100001 header reads and returns with the error flagged: the bound of C16 is attained. -/
theorem nextNodeArray_cycle_header_reads :
    ∃ r : Helper, nextNodeArrayCounted cycleDict 100001 (sampleHelper 0) = some (r, 100001)
      ∧ r.mIsError = true ∧ r.mReadingState.mPos = cycleDict.NOT_A_DICT_POS :=
  nextNodeArrayCounted_cycleDict 100000 0 (sampleHelper 0) rfl (by decide)

/-! ## The counters and the cursor after a header read -/

/-- The total node count after `nextNodeArray` is not below what it was, unless the call
ended at a header with a negative node count. -/
theorem nextNodeArray_total_aux (d : Dict) :
    ∀ (n : Nat) (h : Helper), headerReadBudget h.mReadingState ≤ n →
      h.mReadingState.mTotalNodeCount ≤ (nextNodeArray d h).mReadingState.mTotalNodeCount
        ∨ ((nextNodeArray d h).mIsError = true
          ∧ (nextNodeArray d h).mReadingState.mNodeCount < 0
          ∧ (nextNodeArray d h).mReadingState.mPos = d.NOT_A_DICT_POS)
  | 0, h, hn => absurd (headerReadBudget_pos h.mReadingState) (by omega)
  | n + 1, h, hn => by
    rw [nextNodeArray_eq]
    have ht := readPtNodeArrayHeader_mTotalNodeCount d h.mReadingState
    split
    · by_cases hneg : (readPtNodeArrayHeader d h.mReadingState).mNodeCount < 0
      · exact Or.inr ⟨rfl, hneg, rfl⟩
      · left
        show h.mReadingState.mTotalNodeCount
          ≤ (readPtNodeArrayHeader d h.mReadingState).mTotalNodeCount
        omega
    · rename_i hinv
      have hok := isInvalidPtNodeArray_eq_false (Bool.eq_false_iff.mpr hinv)
      split
      · rename_i hz
        rw [followForwardLink_eq]
        split
        · rcases nextNodeArray_total_aux d n
            { h with mReadingState := { readPtNodeArrayHeader d h.mReadingState with
              mPosOfLastForwardLinkField := (readPtNodeArrayHeader d h.mReadingState).mPos
              mPos := (readPtNodeArrayHeader d h.mReadingState).mPos
                + readForwardLinkField d (readPtNodeArrayHeader d h.mReadingState) } }
            (headerReadBudget_succ_le h.mReadingState _ rfl hok.2.2 hn) with h1 | h1
          · have hA : h.mReadingState.mTotalNodeCount
                ≤ (readPtNodeArrayHeader d h.mReadingState).mTotalNodeCount := by omega
            exact Or.inl (le_trans hA h1)
          · exact Or.inr h1
        · left
          show h.mReadingState.mTotalNodeCount
            ≤ (readPtNodeArrayHeader d h.mReadingState).mTotalNodeCount
          omega
      · left
        have h0 := hok.1
        show h.mReadingState.mTotalNodeCount
          ≤ (readPtNodeArrayHeader d h.mReadingState).mTotalNodeCount
        omega

/-- C17, at its failing input. In the sample dictionary the header at 60 declares the node
count -1: after `nextNodeArray` the node-array counter is 1, above the 0 it was, and the total
node count is -1, below the 0 it was. -/
theorem nextNodeArray_total_decreases :
    (nextNodeArray sampleDict (sampleHelper 60)).mReadingState.mNodeArrayCount = 1
      ∧ (sampleHelper 60).mReadingState.mTotalNodeCount = 0
      ∧ (nextNodeArray sampleDict (sampleHelper 60)).mReadingState.mTotalNodeCount = -1
      ∧ ¬ ((sampleHelper 60).mReadingState.mNodeArrayCount
            < (nextNodeArray sampleDict (sampleHelper 60)).mReadingState.mNodeArrayCount
          ∧ (sampleHelper 60).mReadingState.mTotalNodeCount
            ≤ (nextNodeArray sampleDict (sampleHelper 60)).mReadingState.mTotalNodeCount) := by
  decide

/-- C17, as amended. After a call of `nextNodeArray` the node-array counter is above what it
was before the call, and the total node count is not below what it was before the call
unless the call ended at a header with a negative node count, with the error flagged and the
position at `NOT_A_DICT_POS`: line 88 adds the decoded count to the total before line 90
checks it. In particular the total is not below what it was when the call leaves the
position off the sentinel. -/
theorem nextNodeArray_counters (d : Dict) (h : Helper) :
    h.mReadingState.mNodeArrayCount < (nextNodeArray d h).mReadingState.mNodeArrayCount
      ∧ (h.mReadingState.mTotalNodeCount ≤ (nextNodeArray d h).mReadingState.mTotalNodeCount
        ∨ ((nextNodeArray d h).mIsError = true
          ∧ (nextNodeArray d h).mReadingState.mNodeCount < 0
          ∧ (nextNodeArray d h).mReadingState.mPos = d.NOT_A_DICT_POS))
      ∧ ((nextNodeArray d h).mReadingState.mPos ≠ d.NOT_A_DICT_POS →
        h.mReadingState.mTotalNodeCount
          ≤ (nextNodeArray d h).mReadingState.mTotalNodeCount) := by
  have h1 := (nextNodeArray_landed d h).count
  have h2 := nextNodeArray_total_aux d _ h le_rfl
  refine ⟨by omega, h2, fun hp => ?_⟩
  rcases h2 with h3 | h3
  · exact h3
  · exact absurd h3.2.2 hp

/-- C18. When a call of `nextNodeArray` or of `followForwardLink` returns with the position
off the sentinel, at least one node remains in the current array, the total node count and
the node-array counter are at most 100000, and the error flag is as it was before the call:
the call did not set it. -/
theorem nextNodeArray_rests_on_node (d : Dict) (h : Helper) :
    ((nextNodeArray d h).mReadingState.mPos ≠ d.NOT_A_DICT_POS →
      1 ≤ (nextNodeArray d h).mReadingState.mNodeCount
        ∧ (nextNodeArray d h).mReadingState.mTotalNodeCount ≤ 100000
        ∧ (nextNodeArray d h).mReadingState.mNodeArrayCount ≤ 100000
        ∧ (nextNodeArray d h).mIsError = h.mIsError)
      ∧ ((followForwardLink d h).mReadingState.mPos ≠ d.NOT_A_DICT_POS →
        1 ≤ (followForwardLink d h).mReadingState.mNodeCount
          ∧ (followForwardLink d h).mReadingState.mTotalNodeCount ≤ 100000
          ∧ (followForwardLink d h).mReadingState.mNodeArrayCount ≤ 100000
          ∧ (followForwardLink d h).mIsError = h.mIsError) := by
  constructor
  · intro hp
    obtain ⟨h1, _, h3, h4, h5⟩ := (nextNodeArray_landed d h).node hp
    exact ⟨h4, h5, h3, h1⟩
  · intro hp
    obtain ⟨h1, _, h3, h4, h5⟩ := (followForwardLink_landed d h).node hp
    exact ⟨h4, h5, h3, h1⟩

/-- In the two-buffer dictionary the call of `nextNodeArray` at 20 and the call of
`followForwardLink` at 40 leave the cursor on a node, with the flag unset. -/
theorem nextNodeArray_rests_on_node_witness :
    (nextNodeArray segmentDict (sampleHelper 20)).mReadingState.mPos
        ≠ segmentDict.NOT_A_DICT_POS
      ∧ (1 ≤ (nextNodeArray segmentDict (sampleHelper 20)).mReadingState.mNodeCount
        ∧ (nextNodeArray segmentDict (sampleHelper 20)).mReadingState.mTotalNodeCount ≤ 100000
        ∧ (nextNodeArray segmentDict (sampleHelper 20)).mReadingState.mNodeArrayCount ≤ 100000
        ∧ (nextNodeArray segmentDict (sampleHelper 20)).mIsError = (sampleHelper 20).mIsError)
      ∧ (followForwardLink segmentDict (sampleHelper 40)).mReadingState.mPos
        ≠ segmentDict.NOT_A_DICT_POS
      ∧ (followForwardLink segmentDict (sampleHelper 40)).mIsError = false :=
  ⟨by decide, (nextNodeArray_rests_on_node segmentDict (sampleHelper 20)).1 (by decide),
    by decide,
    ((nextNodeArray_rests_on_node segmentDict (sampleHelper 40)).2 (by decide)).2.2.2⟩

/-! ## The node reader is read off the sentinel -/

theorem hasChildrenQueries_not_end (ops : Ops σ) (listener : TraversingEventListener κ) :
    ∀ (fuel : Nat) (v : Bool) (h : σ) (l : κ),
      ∀ q ∈ hasChildrenQueries ops listener fuel v h l, ops.isEnd q = false
  | 0, _, _, _ => by
    intro q hq
    simp [hasChildrenQueries] at hq
  | fuel + 1, v, h, l => by
    intro q hq
    unfold hasChildrenQueries at hq
    by_cases hend : ops.isEnd h = true
    · simp [hend] at hq
    · have hend' : ops.isEnd h = false := Bool.eq_false_iff.mpr hend
      rw [if_neg hend] at hq
      split at hq
      · split at hq
        · dsimp only at hq
          split at hq
          · rw [List.mem_singleton] at hq
            exact hq ▸ hend'
          · rcases List.mem_cons.mp hq with hq | hq
            · exact hq ▸ hend'
            · exact hasChildrenQueries_not_end ops listener fuel _ _ _ q hq
        · rcases List.mem_cons.mp hq with hq | hq
          · exact hq ▸ hend'
          · exact hasChildrenQueries_not_end ops listener fuel _ _ _ q hq
      · dsimp only at hq
        split at hq
        · simp at hq
        · split at hq
          · split at hq
            · simp at hq
            · exact hasChildrenQueries_not_end ops listener fuel _ _ _ q hq
          · exact hasChildrenQueries_not_end ops listener fuel _ _ _ q hq

theorem traverseLoop_visits_not_end (ops : Ops σ) (listener : TraversingEventListener κ) :
    ∀ (fuel : Nat) (v : Bool) (h : σ) (l : κ),
      ∀ c ∈ (traverseLoop ops listener fuel v h l).calls, ∀ node : Int,
        c.event = Event.onVisitingPtNode node →
          ops.isEnd c.helper = false ∧ node = ops.mNodeReader c.helper
  | 0, _, _, _ => by
    intro c hc
    simp [traverseLoop] at hc
  | fuel + 1, v, h, l => by
    intro c hc node hev
    unfold traverseLoop at hc
    by_cases hend : ops.isEnd h = true
    · rw [if_pos hend] at hc
      dsimp only at hc
      rw [List.mem_singleton] at hc
      rw [hc] at hev
      exact absurd hev (by simp)
    · have hend' : ops.isEnd h = false := Bool.eq_false_iff.mpr hend
      rw [if_neg hend] at hc
      split at hc
      · split at hc
        · dsimp only at hc
          split at hc
          · rw [List.mem_singleton] at hc
            rw [hc] at hev
            exact absurd hev (by simp)
          · rw [Run.after_calls] at hc
            rcases List.mem_append.mp hc with hc | hc
            · rw [List.mem_singleton] at hc
              rw [hc] at hev
              exact absurd hev (by simp)
            · exact traverseLoop_visits_not_end ops listener fuel _ _ _ c hc node hev
        · exact traverseLoop_visits_not_end ops listener fuel _ _ _ c hc node hev
      · dsimp only at hc
        have hvisit : ∀ b : Bool,
            c = ⟨Event.onVisitingPtNode (ops.mNodeReader h), h, b⟩ →
              ops.isEnd c.helper = false ∧ node = ops.mNodeReader c.helper := by
          intro b hb
          rw [hb] at hev ⊢
          simp only [Event.onVisitingPtNode.injEq] at hev
          exact ⟨hend', hev.symm⟩
        split at hc
        · rw [List.mem_singleton] at hc
          exact hvisit _ hc
        · split at hc
          · split at hc
            · simp only [List.mem_cons, List.mem_singleton, List.not_mem_nil, or_false] at hc
              rcases hc with hc | hc
              · exact hvisit _ hc
              · rw [hc] at hev
                exact absurd hev (by simp)
            · rw [Run.after_calls] at hc
              rcases List.mem_append.mp hc with hc | hc
              · simp only [List.mem_cons, List.mem_singleton, List.not_mem_nil, or_false] at hc
                rcases hc with hc | hc
                · exact hvisit _ hc
                · rw [hc] at hev
                  exact absurd hev (by simp)
              · exact traverseLoop_visits_not_end ops listener fuel _ _ _ c hc node hev
          · rw [Run.after_calls] at hc
            rcases List.mem_append.mp hc with hc | hc
            · rw [List.mem_singleton] at hc
              exact hvisit _ hc
            · exact traverseLoop_visits_not_end ops listener fuel _ _ _ c hc node hev

/-- C19. During the walk the node reader is read only off the sentinel, for every dictionary,
every listener and every choice of the member functions that move the cursor: with `isEnd`
the test that the position is `NOT_A_DICT_POS`, every call of `mNodeReader.hasChildren()`
(line 37) is made with the position off the sentinel, and every call of `onVisitingPtNode`
is made with the position off the sentinel and is handed the node of the reader at that
call. -/
theorem traverse_reads_node_off_sentinel {κ : Type} (d : Dict) (ops : Ops Helper)
    (listener : TraversingEventListener κ) (fuel : Nat) (h : Helper) (l : κ) :
    (∀ q ∈ traverseHasChildrenQueries { ops with isEnd := isEnd d } listener fuel h l,
        q.mReadingState.mPos ≠ d.NOT_A_DICT_POS)
      ∧ ∀ c ∈ (traverseAllPtNodesInPostorderDepthFirstManner { ops with isEnd := isEnd d }
          listener fuel h l).calls,
        ∀ node : Int, c.event = Event.onVisitingPtNode node →
          c.helper.mReadingState.mPos ≠ d.NOT_A_DICT_POS ∧ node = ops.mNodeReader c.helper := by
  have hpos : ∀ q : Helper, isEnd d q = false → q.mReadingState.mPos ≠ d.NOT_A_DICT_POS := by
    intro q hq
    simpa [isEnd] using hq
  constructor
  · intro q hq
    unfold traverseHasChildrenQueries at hq
    dsimp only at hq
    split at hq
    · simp at hq
    · exact hpos q (hasChildrenQueries_not_end { ops with isEnd := isEnd d } listener fuel
        false h _ q hq)
  · intro c hc node hev
    unfold traverseAllPtNodesInPostorderDepthFirstManner at hc
    dsimp only at hc
    split at hc
    · rw [List.mem_singleton] at hc
      rw [hc] at hev
      exact absurd hev (by simp)
    · rw [Run.after_calls] at hc
      rcases List.mem_append.mp hc with hc | hc
      · rw [List.mem_singleton] at hc
        rw [hc] at hev
        exact absurd hev (by simp)
      · obtain ⟨h1, h2⟩ := traverseLoop_visits_not_end { ops with isEnd := isEnd d } listener
          fuel false h _ c hc node hev
        exact ⟨hpos _ h1, h2⟩

/-- The walk of the sample dictionary from 0 reads the node reader at the nodes 1, 11 and 2
and visits the nodes 11, 1 and 2, none of them at the sentinel. -/
theorem sample_walk_reads_nodes :
    (traverseHasChildrenQueries (helperOps sampleDict) listenerAlwaysTrue 20 (sampleStart 0)
        ()).map (fun q => q.mReadingState.mPos) = [1, 11, 2]
      ∧ visitedNodes (traverseAllPtNodesInPostorderDepthFirstManner (helperOps sampleDict)
          listenerAlwaysTrue 20 (sampleStart 0) ()).calls = [11, 1, 2] := by
  decide
/-! ## The number of ascents and descents -/

end latinime
